import Mathlib

/-!
# VoltDB execution engine: the range-count, scan and projection executors

A shallow embedding of `src/ee/executors/indexcountexecutor.cpp`
(`IndexCountExecutor::p_init` and `IndexCountExecutor::p_execute`) and the
properties of the range-count algorithm, followed by the embedding of the sequential
scan and projection executors.

Conventions of the embedding.

* A key tuple (`TableTuple`) is the list of its column values, `none` being SQL NULL.
* The ordered index is consumed through the four calls the executor makes
  (`hasKey`, `getCounterLET`, `getCounterGET`, `getSize`); `TableIndex` is that interface.
  `rankIndex` is a model of the index over a multiset of entries.
* A key expression is represented by the outcome of
  `key.setNValue(ctr, expr->eval(&m_dummy, NULL))`: the stored value or the
  `SQLException` thrown by the coercion.
* `assert` lines are not executed (release build); they do not affect control flow.
* `int64_t` ranks are unbounded integers: every rank is bounded by the index size.
* The scan and the projection insert into a temp table whose limits may reject a tuple
  (`TupleTempTable`). The range-count executor is embedded twice: `p_executeOnTable` is
  `p_execute` on such a table, and `p_execute` is the same function on the list of the count
  rows it puts, which is what the properties of the count itself are stated on
  (`p_executeOnTable_rows` relates the two).
-/

namespace voltdb

/-- Index lookup type tags read by the executor (`INDEX_LOOKUP_TYPE_*`).
`INVALID` stands for a tag that is none of the five the executor names. -/
inductive IndexLookupType where
  | INVALID | EQ | GT | GTE | LT | LTE
  deriving DecidableEq, Repr

/-- The internal flags of a `SQLException` that the executor tests:
`getInternalFlags() & TYPE_OVERFLOW` and `getInternalFlags() & TYPE_UNDERFLOW`. -/
structure SQLException where
  TYPE_OVERFLOW : Bool
  TYPE_UNDERFLOW : Bool
  deriving DecidableEq, Repr

/-- A value of an integer column; `none` is SQL NULL. -/
abbrev NValue := Option Int

/-- A tuple over a schema: its column values in column order. -/
abbrev TableTuple := List NValue

/-- A column type, reduced to what the executor reads from it. -/
structure ValueType where
  maxValue : Int
  deriving DecidableEq, Repr, Inhabited

/-- The call `getMaxTypeValue(type)`. -/
def getMaxTypeValue (type : ValueType) : Int := type.maxValue

/-- A tuple schema: the column types in column order. -/
abbrev TupleSchema := List ValueType

/-- The call `schema->columnCount()`. -/
def TupleSchema.columnCount (schema : TupleSchema) : Nat := schema.length

/-- The call `schema->columnType(ctr)`. -/
def TupleSchema.columnType (schema : TupleSchema) (ctr : Nat) : ValueType := schema.getD ctr default

/-- The call `tuple.setAllNulls()` on a tuple of the given schema. -/
def setAllNulls (schema : TupleSchema) : TableTuple := List.replicate schema.columnCount none

/-- The call `tuple.setNValue(ctr, value)` once the coercion has succeeded. -/
def setNValue (tuple : TableTuple) (ctr : Nat) (value : NValue) : TableTuple := tuple.set ctr value

/-- The interface of a countable `TableIndex` as the executor uses it. -/
structure TableIndex where
  getKeySchema : TupleSchema
  hasKey : TableTuple → Bool
  getCounterLET : TableTuple → Bool → Int
  getCounterGET : TableTuple → Bool → Int
  getSize : Int

/-- A search-key or end-key expression, as the outcome of evaluating it and storing the value
into its key column: the stored value, or the exception thrown by `setNValue`. -/
abbrev KeyExpression := Except SQLException NValue

/-- The fields of `IndexCountPlanNode` read by the executor. An expression pointer may be NULL. -/
structure IndexCountPlanNode where
  searchKeyExpressions : List (Option KeyExpression)
  endKeyExpressions : List (Option KeyExpression)
  lookupType : IndexLookupType
  endType : IndexLookupType

/-- The count rows handed to the output temp table, in order, each one BIGINT column. The
table itself, whose limits may reject a row, is `TupleTempTable`, on which `p_execute` is
embedded as `IndexCountExecutor.p_executeOnTable`. -/
abbrev TempTable := List Int

/-- The members of `IndexCountExecutor` that `p_init` sets and `p_execute` reads. -/
structure IndexCountExecutor where
  m_abstractNode : IndexCountPlanNode
  m_index : TableIndex
  m_numOfSearchkeys : Nat
  m_numOfEndkeys : Nat
  m_lookupType : IndexLookupType
  m_endType : IndexLookupType

/-- `IndexCountExecutor::p_init` (lines 33-109); `none` is `return false`.
`m_endType` is assigned only when there are end keys; otherwise it is never read. -/
def IndexCountExecutor.p_init (node : IndexCountPlanNode) (index : TableIndex) :
    Option IndexCountExecutor :=
  let m_numOfSearchkeys := node.searchKeyExpressions.length
  if (node.searchKeyExpressions.take m_numOfSearchkeys).any (fun e => e.isNone) then none
  else
    let m_numOfEndkeys := node.endKeyExpressions.length
    if m_numOfEndkeys ≠ 0 ∧ (node.endKeyExpressions.take m_numOfEndkeys).any (fun e => e.isNone) then none
    else
      let m_lookupType := node.lookupType
      let m_endType := if m_numOfEndkeys ≠ 0 then node.endType else IndexLookupType.INVALID
      let m_lookupType :=
        if m_lookupType = IndexLookupType.EQ ∧ index.getKeySchema.columnCount > m_numOfSearchkeys
        then IndexLookupType.GTE else m_lookupType
      some { m_abstractNode := node, m_index := index, m_numOfSearchkeys := m_numOfSearchkeys,
             m_numOfEndkeys := m_numOfEndkeys, m_lookupType := m_lookupType, m_endType := m_endType }

/-- How a key-building loop of `p_execute` ends. -/
inductive KeyLoop where
  /-- The loop ran to its end or left by `break`: the key built so far, and the
  `searchKeyUnderflow` (start key) or `endKeyOverflow` (end key) flag. -/
  | finished (key : TableTuple) (flag : Bool)
  /-- The path `output_temp_table->insertTempTuple(tmptup); return true;` with the default count 0. -/
  | earlyZero
  /-- The path `throw e`. -/
  | rethrow (e : SQLException)
  /-- A NULL expression pointer is dereferenced (excluded by `p_init`). -/
  | nullExpression
  deriving DecidableEq, Repr

/-- The search-key loop of `p_execute` (lines 147-188), from counter `ctr` on. -/
def searchKeyLoop (localLookupType : IndexLookupType) (activeNumOfSearchKeys : Nat) :
    List (Option KeyExpression) → Nat → TableTuple → KeyLoop
  | [], _, m_searchKey => KeyLoop.finished m_searchKey false
  | none :: _, _, _ => KeyLoop.nullExpression
  | some (Except.ok candidateValue) :: rest, ctr, m_searchKey =>
      searchKeyLoop localLookupType activeNumOfSearchKeys rest (ctr + 1)
        (setNValue m_searchKey ctr candidateValue)
  | some (Except.error e) :: _, ctr, m_searchKey =>
      if e.TYPE_OVERFLOW = false ∧ e.TYPE_UNDERFLOW = false then KeyLoop.rethrow e
      else if localLookupType ≠ IndexLookupType.EQ ∧ ctr = activeNumOfSearchKeys - 1 then
        if e.TYPE_OVERFLOW = true then KeyLoop.earlyZero
        else if e.TYPE_UNDERFLOW = true then KeyLoop.finished m_searchKey true
        else KeyLoop.rethrow e
      else KeyLoop.earlyZero

/-- The end-key loop of `p_execute` (lines 199-239), from counter `ctr` on. -/
def endKeyLoop (schema : TupleSchema) (m_numOfEndkeys : Nat) :
    List (Option KeyExpression) → Nat → TableTuple → KeyLoop
  | [], _, m_endKey => KeyLoop.finished m_endKey false
  | none :: _, _, _ => KeyLoop.nullExpression
  | some (Except.ok endKeyValue) :: rest, ctr, m_endKey =>
      endKeyLoop schema m_numOfEndkeys rest (ctr + 1) (setNValue m_endKey ctr endKeyValue)
  | some (Except.error e) :: _, ctr, m_endKey =>
      if e.TYPE_OVERFLOW = false ∧ e.TYPE_UNDERFLOW = false then KeyLoop.rethrow e
      else if ctr = m_numOfEndkeys - 1 then
        if e.TYPE_UNDERFLOW = true then KeyLoop.earlyZero
        else if e.TYPE_OVERFLOW = true then
          KeyLoop.finished
            (setNValue m_endKey ctr (some (getMaxTypeValue (schema.columnType ctr)))) true
        else KeyLoop.rethrow e
      else KeyLoop.earlyZero

/-- Lines 250-272 of `p_execute`: the pair `(rkStart, leftIncluded)`; `none` is `return false`. -/
def startRank (m_index : TableIndex) (searchKeyUnderflow : Bool) (localLookupType : IndexLookupType)
    (m_searchKey : TableTuple) (activeNumOfSearchKeys : Nat) : Option (Int × Int) :=
  if searchKeyUnderflow = false then
    if localLookupType = IndexLookupType.GT then
      some (m_index.getCounterLET m_searchKey true, 0)
    else if localLookupType = IndexLookupType.GTE then
      let (rkStart, leftIncluded) : Int × Int :=
        if m_index.hasKey m_searchKey = true then (m_index.getCounterLET m_searchKey false, 1)
        else (m_index.getCounterLET m_searchKey true, 0)
      if m_index.getKeySchema.columnCount > activeNumOfSearchKeys then some (rkStart + 1, 1)
      else some (rkStart, leftIncluded)
    else none
  else some (0, 0)

/-- Lines 273-293 of `p_execute`: the pair `(rkEnd, rightIncluded)`; `none` is `return false`. -/
def endRank (m_index : TableIndex) (m_numOfEndkeys : Nat) (endKeyOverflow : Bool)
    (m_endType : IndexLookupType) (m_endKey : TableTuple) : Option (Int × Int) :=
  if m_numOfEndkeys ≠ 0 then
    if endKeyOverflow = true then some (m_index.getCounterGET m_endKey true, 0)
    else if m_endType = IndexLookupType.LT then some (m_index.getCounterGET m_endKey false, 0)
    else if m_endType = IndexLookupType.LTE then
      if m_index.hasKey m_endKey = true then some (m_index.getCounterGET m_endKey true, 1)
      else some (m_index.getCounterGET m_endKey false, 0)
    else none
  else some (m_index.getSize, 1)

/-- How `p_execute` ends without returning. -/
inductive ExecError where
  | sqlException (e : SQLException)
  | nullPointer
  deriving DecidableEq, Repr

/-- Lines 243-300 of `p_execute`: the two rank steps, the combination
`rkRes = rkEnd - rkStart - 1 + leftIncluded + rightIncluded` and the output row. -/
def IndexCountExecutor.countRange (self : IndexCountExecutor) (m_searchKey : TableTuple)
    (searchKeyUnderflow : Bool) (m_endKey : TableTuple) (endKeyOverflow : Bool)
    (m_outputTable : TempTable) : Except ExecError (Bool × TempTable) :=
  match startRank self.m_index searchKeyUnderflow self.m_lookupType m_searchKey
      self.m_numOfSearchkeys with
  | none => Except.ok (false, m_outputTable)
  | some (rkStart, leftIncluded) =>
    match endRank self.m_index self.m_numOfEndkeys endKeyOverflow self.m_endType m_endKey with
    | none => Except.ok (false, m_outputTable)
    | some (rkEnd, rightIncluded) =>
      let rkRes := rkEnd - rkStart - 1 + leftIncluded + rightIncluded
      Except.ok (true, m_outputTable ++ [rkRes])

/-- `IndexCountExecutor::p_execute` (lines 111-301): the returned flag and the output table
after the call, or the exception that leaves the function. The temp tuple `tmptup` holds the
default count 0 on every early exit. Without end keys `m_endKey` is not built and not read. -/
def IndexCountExecutor.p_execute (self : IndexCountExecutor) (m_outputTable : TempTable) :
    Except ExecError (Bool × TempTable) :=
  let node := self.m_abstractNode
  let activeNumOfSearchKeys := self.m_numOfSearchkeys
  let localLookupType := self.m_lookupType
  let tmptup : Int := 0
  let schema := self.m_index.getKeySchema
  match searchKeyLoop localLookupType activeNumOfSearchKeys
      (node.searchKeyExpressions.take activeNumOfSearchKeys) 0 (setAllNulls schema) with
  | KeyLoop.earlyZero => Except.ok (true, m_outputTable ++ [tmptup])
  | KeyLoop.rethrow e => Except.error (ExecError.sqlException e)
  | KeyLoop.nullExpression => Except.error ExecError.nullPointer
  | KeyLoop.finished m_searchKey searchKeyUnderflow =>
    match (if self.m_numOfEndkeys ≠ 0 then
             endKeyLoop schema self.m_numOfEndkeys
               (node.endKeyExpressions.take self.m_numOfEndkeys) 0 (setAllNulls schema)
           else KeyLoop.finished [] false) with
    | KeyLoop.earlyZero => Except.ok (true, m_outputTable ++ [tmptup])
    | KeyLoop.rethrow e => Except.error (ExecError.sqlException e)
    | KeyLoop.nullExpression => Except.error ExecError.nullPointer
    | KeyLoop.finished m_endKey endKeyOverflow =>
      self.countRange m_searchKey searchKeyUnderflow m_endKey endKeyOverflow m_outputTable

/-- Initialise the executor for a plan node and an index, then execute it once:
`p_init` followed by `p_execute`; a failed `p_init` reports failure and leaves the output. -/
def IndexCountExecutor.run (node : IndexCountPlanNode) (index : TableIndex)
    (m_outputTable : TempTable) : Except ExecError (Bool × TempTable) :=
  match IndexCountExecutor.p_init node index with
  | none => Except.ok (false, m_outputTable)
  | some executor => executor.p_execute m_outputTable

/-! ## The ordered index: key order and rank probes -/

/-- Modelled from the spec: the comparison order of values (the value classes are not among
the sources). NULL sorts before every value; values compare by `<`. -/
def nvalueLess : NValue → NValue → Bool
  | none, some _ => true
  | some a, some b => decide (a < b)
  | _, none => false

/-- Modelled from the spec: the key order of the ordered index (the key comparators are not
among the sources). Keys compare column by column; the first differing column decides. -/
def keyLess : TableTuple → TableTuple → Bool
  | [], [] => false
  | [], _ :: _ => true
  | _ :: _, [] => false
  | a :: as, b :: bs => nvalueLess a b || (decide (a = b) && keyLess as bs)

/-- Number of entries ordered strictly before `key`. -/
def countBefore (entries : List TableTuple) (key : TableTuple) : Nat :=
  entries.countP (fun x => keyLess x key)

/-- Number of entries ordered at or before `key`. -/
def countUpTo (entries : List TableTuple) (key : TableTuple) : Nat :=
  entries.countP (fun x => !keyLess key x)

/-- The greatest entry ordered at or before `key`, if there is one. -/
def lastAtOrBefore : List TableTuple → TableTuple → Option TableTuple
  | [], _ => none
  | x :: xs, key =>
    match lastAtOrBefore xs key with
    | none => if keyLess key x then none else some x
    | some best => if keyLess key x then some best else if keyLess best x then some x else some best

/-- The least entry ordered at or after `key`, if there is one. -/
def firstAtOrAfter : List TableTuple → TableTuple → Option TableTuple
  | [], _ => none
  | x :: xs, key =>
    match firstAtOrAfter xs key with
    | none => if keyLess x key then none else some x
    | some best => if keyLess x key then some best else if keyLess x best then some x else some best

/-- The 1-based rank, in key order, of the first entry of the tie group of `key`. -/
def rankAsc (entries : List TableTuple) (key : TableTuple) : Int := countBefore entries key + 1

/-- The 1-based rank, in key order, of the last entry of the tie group of `key`. -/
def rankUpper (entries : List TableTuple) (key : TableTuple) : Int := countUpTo entries key

/-- Modelled from the spec: the ordered index (`indexes/tableindex.h` and its implementations
are not among the sources). The index holds a multiset of key tuples in key order (spec 3,
Ordered Index). Its probes are rank queries (spec glossary) whose tie-breaking the spec fixes
only through the combination identity of 4.4 step 6 and the worked example of 8, where the
index `{1,2,2,3,5}` with start key 2 must give 4: the probes are ranks, that is 1-based
positions in key order.
* `getCounterLET key isUpper` is the rank of the greatest entry at or before `key`
  (the last of its tie group if `isUpper`, else the first); 0 if there is no such entry.
* `getCounterGET key isUpper` is the rank of the least entry at or after `key`
  (the last of its tie group if `isUpper`, else the first); `size + 1` if there is none.
* `hasKey key` tells whether an entry equals `key`; `getSize` is the number of entries. -/
def rankIndex (schema : TupleSchema) (entries : List TableTuple) : TableIndex where
  getKeySchema := schema
  hasKey := fun key => entries.any (fun x => decide (x = key))
  getCounterLET := fun key isUpper =>
    match lastAtOrBefore entries key with
    | none => 0
    | some e => if isUpper then rankUpper entries e else rankAsc entries e
  getCounterGET := fun key isUpper =>
    match firstAtOrAfter entries key with
    | none => (entries.length : Int) + 1
    | some e => if isUpper then rankUpper entries e else rankAsc entries e
  getSize := entries.length

/-! ## The reference full scan -/

/-- The lower bound of the range predicate on an index entry: `entry > key` for GT,
`entry >= key` for GTE, in key order. -/
def meetsStart (lookupType : IndexLookupType) (key : TableTuple) (entry : TableTuple) : Bool :=
  match lookupType with
  | IndexLookupType.GT => keyLess key entry
  | IndexLookupType.GTE => !keyLess entry key
  | _ => false

/-- The upper bound of the range predicate on an index entry: `entry < key` for LT,
`entry <= key` for LTE, in key order; no end key is no upper bound. -/
def meetsEnd (endBound : Option (IndexLookupType × TableTuple)) (entry : TableTuple) : Bool :=
  match endBound with
  | none => true
  | some (IndexLookupType.LT, key) => keyLess entry key
  | some (IndexLookupType.LTE, key) => !keyLess key entry
  | some _ => false

/-- A key tuple of the schema holding the given leading column values, the rest NULL. -/
def keyOf (schema : TupleSchema) (values : List NValue) : TableTuple :=
  values ++ List.replicate (schema.columnCount - values.length) none

/-- The index content `{1,2,2,3,5}` of the worked example, over a one-column key. -/
def exampleEntries : List TableTuple := [[some 1], [some 2], [some 2], [some 3], [some 5]]

/-- The plan-node expressions whose coercions all succeed with the given values. -/
def storedKeys (values : List NValue) : List (Option KeyExpression) :=
  values.map (fun v => some (Except.ok v))

/-- The executor `p_init` builds for a plan whose key coercions all succeed. -/
def storedExecutor (index : TableIndex) (lookupType endType : IndexLookupType)
    (searchValues endValues : List NValue) : IndexCountExecutor :=
  { m_abstractNode := ⟨storedKeys searchValues, storedKeys endValues, lookupType, endType⟩
    m_index := index
    m_numOfSearchkeys := searchValues.length
    m_numOfEndkeys := endValues.length
    m_lookupType :=
      if lookupType = IndexLookupType.EQ ∧ index.getKeySchema.columnCount > searchValues.length
      then IndexLookupType.GTE else lookupType
    m_endType := if endValues.length ≠ 0 then endType else IndexLookupType.INVALID }


/-- An expression that is present and whose coercion either succeeds or signals an
arithmetic boundary condition: a thrown exception carries the overflow or the underflow
flag. -/
def boundaryOutcome : Option KeyExpression → Bool
  | none => false
  | some (Except.ok _) => true
  | some (Except.error e) => e.TYPE_OVERFLOW || e.TYPE_UNDERFLOW

/-! ## Expressions, tables, and the scan and projection executors

The embedding of `src/ee/executors/seqscanexecutor.cpp` and
`src/ee/executors/projectionexecutor.cpp`. A table is the list of its tuples in storage
order, which is the order of its iterator. Storing a value into a column of the output
temp tuple is taken to succeed. Logging calls are not modelled. -/

/-- `AbstractExpression` (expressions/abstractexpression.h), reduced to its virtual
`eval(tuple1, tuple2)`; a NULL tuple pointer is `none`. -/
structure AbstractExpression where
  eval : Option TableTuple → Option TableTuple → NValue

/-- Modelled from the spec: `NValue::isTrue()` (the value classes are not among the
sources). The boolean true is held as 1; false, NULL and unknown are not true. -/
def nvalueIsTrue (value : NValue) : Bool := decide (value = some 1)

/-- The call `tuple.getNValue(idx)`. -/
def getNValue (tuple : TableTuple) (idx : Nat) : NValue := tuple.getD idx none

/-- Modelled from the spec: the limits of a temp table (`TempTableLimits`, not among the
sources): whether the table, holding the given tuples, accepts one more tuple. -/
structure TempTableLimits where
  accepts : List TableTuple → TableTuple → Bool

/-- Modelled from the spec: a row-count ceiling, the limits that reject every insert once
the table holds `ceiling` tuples. -/
def rowCeiling (ceiling : Nat) : TempTableLimits := ⟨fun tuples _ => decide (tuples.length < ceiling)⟩

/-- Modelled from the spec: limits that accept every insert. -/
def noLimits : TempTableLimits := ⟨fun _ _ => true⟩

/-- Modelled from the spec: a temp table holding whole tuples (`storage/temptable.h` is not
among the sources): an append-only sequence of tuples, with the scratch tuple returned by
`tempTuple()` and the limits it was created with. -/
structure TupleTempTable where
  m_limits : TempTableLimits
  m_tempTuple : TableTuple
  m_tuples : List TableTuple

/-- The call `table->columnCount()`: the scratch tuple has the schema of the table. -/
def TupleTempTable.columnCount (table : TupleTempTable) : Nat := table.m_tempTuple.length

/-- Modelled from the spec: `TempTable::insertTempTuple(source)`, the append of the output
table, `append(tuple) -> Result<(), CapacityError>`: the returned flag tells whether the
tuple was accepted; a rejected tuple leaves the table as it was. -/
def TupleTempTable.insertTempTuple (table : TupleTempTable) (source : TableTuple) :
    Bool × TupleTempTable :=
  if table.m_limits.accepts table.m_tuples source = true then
    (true, { table with m_tuples := table.m_tuples ++ [source] })
  else (false, table)

/-- The fields of `LimitPlanNode` read through `getLimitAndOffsetByReference`. -/
structure LimitPlanNode where
  limit : Int
  offset : Int

/-- The fields of `ProjectionPlanNode` read by the executors: `isInline()`,
`getOutputIfAllTupleValues()`, `getOutputIfAllParameterValues()` and
`getOutputColumnExpressions()`. -/
structure ProjectionPlanNode where
  isInline : Bool
  outputIfAllTupleValues : List Nat
  outputIfAllParameterValues : List NValue
  outputColumnExpressions : List AbstractExpression

/-- The fields of `SeqScanPlanNode` read by the executor. The inline plan nodes are a map
from node type to node: the entry of type projection, the entry of type limit, and the
number of entries of other types. `outputColumnCount` is the column count of the output
schema of the plan. -/
structure SeqScanPlanNode where
  predicate : Option AbstractExpression
  inlineProjection : Option ProjectionPlanNode
  inlineLimit : Option LimitPlanNode
  otherInlinePlanNodes : Nat
  outputColumnCount : Nat

/-- The value `node->getInlinePlanNodes().size()`. -/
def SeqScanPlanNode.inlinePlanNodesSize (node : SeqScanPlanNode) : Nat :=
  (if node.inlineProjection.isSome then 1 else 0) + (if node.inlineLimit.isSome then 1 else 0)
    + node.otherInlinePlanNodes

/-- What the pointer `m_outputTable` of a scan executor refers to: the target table itself,
or a temp table of its own. -/
inductive OutputTableRef where
  | targetTable
  | tempTable (table : TupleTempTable)

/-- The members of `SeqScanExecutor`. -/
structure SeqScanExecutor where
  m_abstractNode : SeqScanPlanNode
  m_targetTable : List TableTuple
  m_outputTable : OutputTableRef

/-- `SeqScanExecutor::p_setOutputTable` (lines 61-84). `setTempOutputTable` creates an empty
temp table of the output schema of the plan. -/
def SeqScanExecutor.p_setOutputTable (self : SeqScanExecutor) (limits : TempTableLimits) :
    SeqScanExecutor :=
  let node := self.m_abstractNode
  if node.predicate.isNone ∧ node.inlinePlanNodesSize = 0 then
    { self with m_outputTable := OutputTableRef.targetTable }
  else
    { self with
      m_outputTable :=
        (OutputTableRef.tempTable ⟨limits, List.replicate node.outputColumnCount none, []⟩) }

/-- `SeqScanExecutor::p_init` (lines 86-90). -/
def SeqScanExecutor.p_init (_self : SeqScanExecutor) : Bool := true

/-- The value of output column `ctr` of a projection, `exprs[ctr]->eval(&tuple, NULL)`. -/
def evalColumn (exprs : List AbstractExpression) (tuple : TableTuple) (ctr : Nat) : NValue :=
  match exprs[ctr]? with
  | some e => e.eval (some tuple) none
  | none => none

/-- The column loop of the nested projection (lines 181-187): `remaining` columns from
`ctr` upwards are set in the temp tuple. -/
def fillAscending (value : Nat → NValue) : Nat → Nat → TableTuple → TableTuple
  | 0, _, temp_tuple => temp_tuple
  | remaining + 1, ctr, temp_tuple =>
      fillAscending value remaining (ctr + 1) (setNValue temp_tuple ctr (value ctr))

/-- The test of line 165, `predicate == NULL || predicate->eval(&tuple, NULL).isTrue()`. -/
def passes (predicate : Option AbstractExpression) (tuple : TableTuple) : Bool :=
  match predicate with
  | none => true
  | some p => nvalueIsTrue (p.eval (some tuple) none)

/-- The scan loop of `SeqScanExecutor::p_execute` (lines 157-211) over the tuples the
iterator still has to deliver. `output_temp_table` is the result of the dynamic cast of
line 153, `none` when the output table is not a temp table; an insert through it is then a
NULL dereference. -/
def scanLoop (predicate : Option AbstractExpression) (projection_node : Option ProjectionPlanNode)
    (num_of_columns : Nat) (limit offset : Int) :
    List TableTuple → Int → Int → Option TupleTempTable →
      Except ExecError (Bool × Option TupleTempTable)
  | [], _, _, output_temp_table => Except.ok (true, output_temp_table)
  | tuple :: rest, tuple_ctr, tuple_skipped, output_temp_table =>
    if limit = -1 ∨ tuple_ctr < limit then
      if passes predicate tuple = true then
        if tuple_skipped < offset then
          scanLoop predicate projection_node num_of_columns limit offset rest tuple_ctr
            (tuple_skipped + 1) output_temp_table
        else
          match output_temp_table with
          | none => Except.error ExecError.nullPointer
          | some table =>
            match projection_node with
            | some projection =>
              let temp_tuple := fillAscending
                (evalColumn projection.outputColumnExpressions tuple) num_of_columns 0
                table.m_tempTuple
              match ({ table with m_tempTuple := temp_tuple }).insertTempTuple temp_tuple with
              | (false, table) => Except.ok (false, some table)
              | (true, table) =>
                scanLoop predicate projection_node num_of_columns limit offset rest
                  (tuple_ctr + 1) tuple_skipped (some table)
            | none =>
              match table.insertTempTuple tuple with
              | (false, table) => Except.ok (false, some table)
              | (true, table) =>
                scanLoop predicate projection_node num_of_columns limit offset rest
                  (tuple_ctr + 1) tuple_skipped (some table)
      else
        scanLoop predicate projection_node num_of_columns limit offset rest tuple_ctr
          tuple_skipped output_temp_table
    else Except.ok (true, output_temp_table)

/-- Lines 147-151 of `SeqScanExecutor::p_execute`: the pair `(limit, offset)`, both -1
unless a limit node sets them. -/
def limitAndOffset (limit_node : Option LimitPlanNode) : Int × Int :=
  match limit_node with
  | some l => (l.limit, l.offset)
  | none => (-1, -1)

/-- `SeqScanExecutor::p_execute` (lines 92-217): the returned flag and the executor after
the call, or a NULL dereference. When the output table is the target table the cast of line
153 yields NULL and `num_of_columns` has no effect before the dereference; it is put to 0. -/
def SeqScanExecutor.p_execute (self : SeqScanExecutor) :
    Except ExecError (Bool × SeqScanExecutor) :=
  let node := self.m_abstractNode
  let projection_node := node.inlineProjection
  let limit_node := node.inlineLimit
  if node.predicate.isSome ∨ projection_node.isSome ∨ limit_node.isSome then
    let num_of_columns : Nat :=
      match self.m_outputTable with
      | OutputTableRef.targetTable => 0
      | OutputTableRef.tempTable table => table.columnCount
    let limit := (limitAndOffset limit_node).1
    let offset := (limitAndOffset limit_node).2
    let output_temp_table : Option TupleTempTable :=
      match self.m_outputTable with
      | OutputTableRef.targetTable => none
      | OutputTableRef.tempTable table => some table
    match scanLoop node.predicate projection_node num_of_columns limit offset
        self.m_targetTable 0 0 output_temp_table with
    | Except.error e => Except.error e
    | Except.ok (ok, some table) =>
        Except.ok (ok, { self with m_outputTable := OutputTableRef.tempTable table })
    | Except.ok (ok, none) => Except.ok (ok, self)
  else Except.ok (true, self)

/-- The members of `ProjectionExecutor`. -/
structure ProjectionExecutor where
  m_abstractNode : ProjectionPlanNode
  m_inputTable : List TableTuple
  m_outputTable : TupleTempTable

/-- `ProjectionExecutor::p_init` (lines 60-70); the scratch tuple `m_tuple` is not read by
`p_execute`. -/
def ProjectionExecutor.p_init (_self : ProjectionExecutor) : Bool := true

/-- A column loop of `ProjectionExecutor::p_execute` (lines 112-114, 120-122, 127-129):
the columns `count - 1` down to 0 are set in the temp tuple. -/
def fillDescending (value : Nat → NValue) : Nat → TableTuple → TableTuple
  | 0, temp_tuple => temp_tuple
  | ctr + 1, temp_tuple => fillDescending value ctr (setNValue temp_tuple ctr (value ctr))

/-- A tuple loop of `ProjectionExecutor::p_execute` (lines 111-116, 119-124, 126-131): for
each input tuple the temp tuple is filled and inserted; the result of the insert is not
read. -/
def projectionLoop (value : TableTuple → Nat → NValue) (count : Nat) :
    List TableTuple → TupleTempTable → TupleTempTable
  | [], output_temp_table => output_temp_table
  | tuple :: rest, output_temp_table =>
    let temp_tuple := fillDescending (value tuple) count output_temp_table.m_tempTuple
    projectionLoop value count rest
      (({ output_temp_table with m_tempTuple := temp_tuple }).insertTempTuple temp_tuple).2

/-- `ProjectionExecutor::p_execute` (lines 72-136): the returned flag and the executor after
the call. -/
def ProjectionExecutor.p_execute (self : ProjectionExecutor) : Bool × ProjectionExecutor :=
  let node := self.m_abstractNode
  let columnsOnly := node.outputIfAllTupleValues
  let paramsOnly := node.outputIfAllParameterValues
  let columnExpressions := node.outputColumnExpressions
  let columnsOnlyCount := columnsOnly.length
  let paramsOnlyCount := if columnsOnlyCount = 0 then paramsOnly.length else 0
  let exprsCount :=
    if columnsOnlyCount = 0 then (if paramsOnlyCount = 0 then columnExpressions.length else 0)
    else 0
  let output_temp_table :=
    if columnsOnlyCount ≠ 0 then
      projectionLoop (fun tuple ctr => getNValue tuple (columnsOnly.getD ctr 0)) columnsOnlyCount
        self.m_inputTable self.m_outputTable
    else if paramsOnlyCount ≠ 0 then
      projectionLoop (fun _ ctr => paramsOnly.getD ctr none) paramsOnlyCount
        self.m_inputTable self.m_outputTable
    else
      projectionLoop (fun tuple ctr => evalColumn columnExpressions tuple ctr) exprsCount
        self.m_inputTable self.m_outputTable
  (true, { self with m_outputTable := output_temp_table })

/-! ## The reference behaviour of the scan and of the projection -/

/-- The output tuple of a projection: column `i` is expression `i` evaluated on the tuple. -/
def projectTuple (exprs : List AbstractExpression) (tuple : TableTuple) : TableTuple :=
  exprs.map (fun e => e.eval (some tuple) none)

/-- The output tuple of a scan for a tuple it keeps: the projection of the tuple, or the
tuple itself without a projection. -/
def outputTuple (projection_node : Option ProjectionPlanNode) (tuple : TableTuple) : TableTuple :=
  match projection_node with
  | some projection => projectTuple projection.outputColumnExpressions tuple
  | none => tuple

/-- The rows a scan is to emit, in the words of the spec: keep the tuples that pass the
predicate, drop the first `offset` of them, keep at most `limit` of the rest (all without a
limit node), and map each through the projection (or copy it without one). -/
def scanReference (rows : List TableTuple) (predicate : Option AbstractExpression)
    (limit_node : Option LimitPlanNode) (projection_node : Option ProjectionPlanNode) :
    List TableTuple :=
  let kept := rows.filter (passes predicate)
  let cut :=
    match limit_node with
    | some l => (kept.drop l.offset.toNat).take l.limit.toNat
    | none => kept
  cut.map (outputTuple projection_node)

/-- The tuples the scan loop is due to insert, for the values of `limit` and `offset` as
the loop reads them (`limit = -1` bounds nothing), when `tuple_ctr` tuples were inserted
and `tuple_skipped` tuples were skipped before. -/
def dueTuples (predicate : Option AbstractExpression) (projection_node : Option ProjectionPlanNode)
    (limit offset : Int) (tuple_ctr tuple_skipped : Nat) (rows : List TableTuple) :
    List TableTuple :=
  let rest := (rows.filter (passes predicate)).drop (offset.toNat - tuple_skipped)
  (if limit = -1 then rest else rest.take (limit.toNat - tuple_ctr)).map
    (outputTuple projection_node)

/-- The tuples a scan executor is due to insert over its whole target table. -/
def SeqScanExecutor.due (self : SeqScanExecutor) : List TableTuple :=
  dueTuples self.m_abstractNode.predicate self.m_abstractNode.inlineProjection
    (limitAndOffset self.m_abstractNode.inlineLimit).1
    (limitAndOffset self.m_abstractNode.inlineLimit).2 0 0 self.m_targetTable

/-- A sample expression: the reference to column `idx` of the first tuple. -/
def tupleValue (idx : Nat) : AbstractExpression :=
  ⟨fun tuple1 _ => match tuple1 with
    | some tuple => getNValue tuple idx
    | none => none⟩

/-- A sample predicate: column `idx` of the first tuple is greater than zero; NULL compares
to unknown. -/
def columnPositive (idx : Nat) : AbstractExpression :=
  ⟨fun tuple1 _ => match tuple1 with
    | some tuple =>
      (match getNValue tuple idx with
       | some v => if 0 < v then some 1 else some 0
       | none => none)
    | none => none⟩

/-- A sample target table of two columns: five tuples with a positive first column,
two without. -/
def sampleRows : List TableTuple :=
  [[some 1, some 10], [some (-1), some 0], [some 2, some 20], [some 3, some 30],
   [none, some 7], [some 4, some 40], [some 5, some 50]]

/-- A sample scan executor over `sampleRows` with the predicate `columnPositive 0`, before
`p_setOutputTable`. -/
def sampleScan (inlineProjection : Option ProjectionPlanNode) (inlineLimit : Option LimitPlanNode)
    (outputColumnCount : Nat) : SeqScanExecutor :=
  { m_abstractNode := ⟨some (columnPositive 0), inlineProjection, inlineLimit, 0, outputColumnCount⟩
    m_targetTable := sampleRows
    m_outputTable := OutputTableRef.targetTable }

/-- A sample input table of three columns. -/
def sampleInput : List TableTuple :=
  [[some 1, some 2, some 3], [some 4, some 5, some 6], [some 7, none, some 9]]

/-- A sample projection executor over `sampleInput` with an empty output table of
`columns` columns. -/
def sampleProjection (node : ProjectionPlanNode) (limits : TempTableLimits) (columns : Nat) :
    ProjectionExecutor :=
  { m_abstractNode := node
    m_inputTable := sampleInput
    m_outputTable := ⟨limits, List.replicate columns none, []⟩ }

/-- Sample limits that reject exactly the given tuple. -/
def rejecting (rejected : TableTuple) : TempTableLimits := ⟨fun _ t => decide (t ≠ rejected)⟩

/-- Inserting tuples one after the other until one is rejected: whether all were accepted,
and the tuples the table then holds. -/
def insertUntilRejected (limits : TempTableLimits) : List TableTuple → List TableTuple →
    Bool × List TableTuple
  | tuples, [] => (true, tuples)
  | tuples, t :: rest =>
    if limits.accepts tuples t = true then insertUntilRejected limits (tuples ++ [t]) rest
    else (false, tuples)

/-- The start rank the index returns in step 4 (lines 251-259): `getCounterLET(key, true)`
for GT; for GTE `getCounterLET(key, false)` when an entry equals the key, else
`getCounterLET(key, true)`. -/
def startProbe (m_index : TableIndex) (localLookupType : IndexLookupType)
    (m_searchKey : TableTuple) : Int :=
  if localLookupType = IndexLookupType.GTE ∧ m_index.hasKey m_searchKey = true then
    m_index.getCounterLET m_searchKey false
  else m_index.getCounterLET m_searchKey true

/-- The rest of `IndexCountExecutor::p_execute` once the search-key loop has left with the
start-underflow flag set: the end-key loop, the end rank step with `rkStart = 0` and
`leftIncluded = 0` (step 4 is skipped), and the output row. It reads the index, the end-key
expressions with their number and the end lookup type, and nothing of the start key. -/
def countWithoutStart (m_index : TableIndex) (endKeyExpressions : List (Option KeyExpression))
    (m_numOfEndkeys : Nat) (m_endType : IndexLookupType) (m_outputTable : TempTable) :
    Except ExecError (Bool × TempTable) :=
  match (if m_numOfEndkeys ≠ 0 then
           endKeyLoop m_index.getKeySchema m_numOfEndkeys (endKeyExpressions.take m_numOfEndkeys) 0
             (setAllNulls m_index.getKeySchema)
         else KeyLoop.finished [] false) with
  | KeyLoop.earlyZero => Except.ok (true, m_outputTable ++ [0])
  | KeyLoop.rethrow e => Except.error (ExecError.sqlException e)
  | KeyLoop.nullExpression => Except.error ExecError.nullPointer
  | KeyLoop.finished m_endKey endKeyOverflow =>
    match endRank m_index m_numOfEndkeys endKeyOverflow m_endType m_endKey with
    | none => Except.ok (false, m_outputTable)
    | some (rkEnd, rightIncluded) => Except.ok (true, m_outputTable ++ [rkEnd - 1 + rightIncluded])

/-- A sample executor on a two-column index: the start key `(first, underflow)` under the
given lookup type, the end key `(4, 9)` under LT. -/
def underflowSample (first : Int) (lookupType : IndexLookupType) : IndexCountExecutor :=
  { m_abstractNode := ⟨storedKeys [some first] ++ [some (Except.error ⟨false, true⟩)],
      storedKeys [some 4, some 9], lookupType, IndexLookupType.LT⟩
    m_index := rankIndex [⟨127⟩, ⟨127⟩] [[some 4, some 1], [some 4, some 12], [some 5, some 0]]
    m_numOfSearchkeys := 2
    m_numOfEndkeys := 2
    m_lookupType := lookupType
    m_endType := IndexLookupType.LT }

/-! ## The range on the supplied key columns; the output table of the count -/

/-- The lower bound of the range predicate on the key columns a start key supplies: the
leading columns of the entry are compared, in key order, with the supplied values. -/
def meetsStartOn (lookupType : IndexLookupType) (values : List NValue) (entry : TableTuple) :
    Bool :=
  meetsStart lookupType values (entry.take values.length)

/-- The upper bound of the range predicate on the key columns an end key supplies: the
leading columns of the entry are compared, in key order, with the supplied values; no end-key
values is no upper bound. -/
def meetsEndOn (endType : IndexLookupType) (values : List NValue) (entry : TableTuple) : Bool :=
  meetsEnd (if values = [] then none else some (endType, values)) (entry.take values.length)

/-- The reference full scan of a range given by the values of its start key and of its end
key: the number of index entries within both bounds on the supplied columns. -/
def rangeCount (entries : List TableTuple) (lookupType : IndexLookupType)
    (searchValues : List NValue) (endType : IndexLookupType) (endValues : List NValue) : Int :=
  entries.countP (fun x => meetsStartOn lookupType searchValues x && meetsEndOn endType endValues x)

/-- Line 138 and line 296: `tmptup.setNValue(0, ValueFactory::getBigIntValue(value))`, where
`tmptup` is the scratch tuple `m_outputTable->tempTuple()` of the output table. -/
def setCount (m_outputTable : TupleTempTable) (value : Int) : TupleTempTable :=
  { m_outputTable with m_tempTuple := setNValue m_outputTable.m_tempTuple 0 (some value) }

/-- The statement `output_temp_table->insertTempTuple(tmptup);` (lines 172, 183, 218, 234
and 297): the flag the insert returns is not read. -/
def insertCount (output_temp_table : TupleTempTable) : TupleTempTable :=
  (output_temp_table.insertTempTuple output_temp_table.m_tempTuple).2

/-- Lines 243-300 of `p_execute` on an output temp table that may reject the row: the two
rank steps, the combination `rkRes = rkEnd - rkStart - 1 + leftIncluded + rightIncluded`,
`tmptup.setNValue(0, rkRes)`, the insert and `return true`. -/
def IndexCountExecutor.countRangeOnTable (self : IndexCountExecutor) (m_searchKey : TableTuple)
    (searchKeyUnderflow : Bool) (m_endKey : TableTuple) (endKeyOverflow : Bool)
    (m_outputTable : TupleTempTable) : Except ExecError (Bool × TupleTempTable) :=
  match startRank self.m_index searchKeyUnderflow self.m_lookupType m_searchKey
      self.m_numOfSearchkeys with
  | none => Except.ok (false, m_outputTable)
  | some (rkStart, leftIncluded) =>
    match endRank self.m_index self.m_numOfEndkeys endKeyOverflow self.m_endType m_endKey with
    | none => Except.ok (false, m_outputTable)
    | some (rkEnd, rightIncluded) =>
      let rkRes := rkEnd - rkStart - 1 + leftIncluded + rightIncluded
      Except.ok (true, insertCount (setCount m_outputTable rkRes))

/-- `IndexCountExecutor::p_execute` (lines 111-301) on an output temp table that may reject
the row: the returned flag and the output table after the call, or the exception that leaves
the function. The scratch tuple of the table is set to the default count 0 first (line 138);
every early exit inserts it and returns true, whatever the insert returns. -/
def IndexCountExecutor.p_executeOnTable (self : IndexCountExecutor)
    (m_outputTable : TupleTempTable) : Except ExecError (Bool × TupleTempTable) :=
  let node := self.m_abstractNode
  let activeNumOfSearchKeys := self.m_numOfSearchkeys
  let localLookupType := self.m_lookupType
  let output_temp_table := setCount m_outputTable 0
  let schema := self.m_index.getKeySchema
  match searchKeyLoop localLookupType activeNumOfSearchKeys
      (node.searchKeyExpressions.take activeNumOfSearchKeys) 0 (setAllNulls schema) with
  | KeyLoop.earlyZero => Except.ok (true, insertCount output_temp_table)
  | KeyLoop.rethrow e => Except.error (ExecError.sqlException e)
  | KeyLoop.nullExpression => Except.error ExecError.nullPointer
  | KeyLoop.finished m_searchKey searchKeyUnderflow =>
    match (if self.m_numOfEndkeys ≠ 0 then
             endKeyLoop schema self.m_numOfEndkeys
               (node.endKeyExpressions.take self.m_numOfEndkeys) 0 (setAllNulls schema)
           else KeyLoop.finished [] false) with
    | KeyLoop.earlyZero => Except.ok (true, insertCount output_temp_table)
    | KeyLoop.rethrow e => Except.error (ExecError.sqlException e)
    | KeyLoop.nullExpression => Except.error ExecError.nullPointer
    | KeyLoop.finished m_endKey endKeyOverflow =>
      self.countRangeOnTable m_searchKey searchKeyUnderflow m_endKey endKeyOverflow
        output_temp_table

/-- The output table after the count rows of a list were set and inserted one after the
other, the flag of each insert not being read. -/
def insertCounts (m_outputTable : TupleTempTable) (rows : List Int) : TupleTempTable :=
  rows.foldl (fun table value => insertCount (setCount table value)) m_outputTable

/-! ## Key order facts -/

theorem nvalueLess_irrefl (a : NValue) : nvalueLess a a = false := by
  cases a <;> simp [nvalueLess]

theorem nvalueLess_trans {a b c : NValue} (h1 : nvalueLess a b = true)
    (h2 : nvalueLess b c = true) : nvalueLess a c = true := by
  cases a <;> cases b <;> cases c <;> simp_all [nvalueLess]
  omega

theorem keyLess_irrefl (a : TableTuple) : keyLess a a = false := by
  induction a with
  | nil => rfl
  | cons x xs ih => simp [keyLess, nvalueLess_irrefl, ih]

theorem keyLess_trans : ∀ {a b c : TableTuple}, keyLess a b = true → keyLess b c = true →
    keyLess a c = true := by
  intro a
  induction a with
  | nil =>
    intro b c h1 h2
    cases b with
    | nil => simp [keyLess] at h1
    | cons y ys =>
      cases c with
      | nil => simp [keyLess] at h2
      | cons z zs => simp [keyLess]
  | cons x xs ih =>
    intro b c h1 h2
    cases b with
    | nil => simp [keyLess] at h1
    | cons y ys =>
      cases c with
      | nil => simp [keyLess] at h2
      | cons z zs =>
        simp only [keyLess, Bool.or_eq_true, Bool.and_eq_true, decide_eq_true_eq] at h1 h2 ⊢
        rcases h1 with h1 | ⟨rfl, h1⟩
        · rcases h2 with h2 | ⟨rfl, _⟩
          · exact Or.inl (nvalueLess_trans h1 h2)
          · exact Or.inl h1
        · rcases h2 with h2 | ⟨rfl, h2⟩
          · exact Or.inl h2
          · exact Or.inr ⟨rfl, ih h1 h2⟩

theorem firstAtOrAfter_none : ∀ {entries : List TableTuple} {key : TableTuple},
    firstAtOrAfter entries key = none → ∀ x ∈ entries, keyLess x key = true := by
  intro entries
  induction entries with
  | nil => intro key _ x hx; simp at hx
  | cons e es ih =>
    intro key h x hx
    simp only [firstAtOrAfter] at h
    split at h
    · rename_i hrec
      split at h
      · rename_i he
        rcases List.mem_cons.mp hx with rfl | hx
        · exact he
        · exact ih hrec x hx
      · simp at h
    · split at h
      · simp at h
      · split at h <;> simp at h

theorem firstAtOrAfter_some : ∀ {entries : List TableTuple} {key q : TableTuple},
    firstAtOrAfter entries key = some q →
      q ∈ entries ∧ keyLess q key = false ∧
        ∀ x ∈ entries, keyLess x key = false → keyLess x q = false := by
  intro entries
  induction entries with
  | nil => intro key q h; simp [firstAtOrAfter] at h
  | cons e es ih =>
    intro key q h
    simp only [firstAtOrAfter] at h
    split at h
    · rename_i hrec
      have hall := firstAtOrAfter_none hrec
      split at h
      · simp at h
      · rename_i he
        simp only [Option.some.injEq] at h
        subst h
        refine ⟨List.mem_cons_self _ _, by simpa using he, ?_⟩
        intro x hx hxk
        rcases List.mem_cons.mp hx with rfl | hx
        · exact keyLess_irrefl _
        · rw [hall x hx] at hxk; exact absurd hxk (by decide)
    · rename_i best hrec
      obtain ⟨hmem, hbk, hmin⟩ := ih hrec
      split at h
      · rename_i he
        simp only [Option.some.injEq] at h
        subst h
        refine ⟨List.mem_cons_of_mem _ hmem, hbk, ?_⟩
        intro x hx hxk
        rcases List.mem_cons.mp hx with rfl | hx
        · rw [he] at hxk; exact absurd hxk (by decide)
        · exact hmin x hx hxk
      · rename_i he
        split at h
        · rename_i heb
          simp only [Option.some.injEq] at h
          subst h
          refine ⟨List.mem_cons_self _ _, by simpa using he, ?_⟩
          intro x hx hxk
          rcases List.mem_cons.mp hx with rfl | hx
          · exact keyLess_irrefl _
          · cases hxe : keyLess x e with
            | false => rfl
            | true =>
              have := keyLess_trans hxe heb
              rw [hmin x hx hxk] at this
              exact absurd this (by decide)
        · rename_i heb
          simp only [Option.some.injEq] at h
          subst h
          refine ⟨List.mem_cons_of_mem _ hmem, hbk, ?_⟩
          intro x hx hxk
          rcases List.mem_cons.mp hx with rfl | hx
          · simpa using heb
          · exact hmin x hx hxk

theorem hasKey_rankIndex (schema : TupleSchema) (entries : List TableTuple) (key : TableTuple) :
    (rankIndex schema entries).hasKey key = true ↔ key ∈ entries := by
  simp [rankIndex]

/-- With every entry strictly before the key, the upper probe is `size + 1`. -/
theorem getCounterGET_of_all_before (schema : TupleSchema) (entries : List TableTuple)
    (key : TableTuple) (isUpper : Bool) (hall : ∀ x ∈ entries, keyLess x key = true) :
    (rankIndex schema entries).getCounterGET key isUpper = (entries.length : Int) + 1 := by
  simp only [rankIndex]
  cases h : firstAtOrAfter entries key with
  | none => rfl
  | some q =>
    obtain ⟨hq, hqk, _⟩ := firstAtOrAfter_some h
    rw [hall q hq] at hqk
    exact absurd hqk (by decide)


/-! ## Building the keys -/

theorem set_after_stored (pre : TableTuple) (v : NValue) (m : Nat) :
    setNValue (pre ++ List.replicate (m + 1) none) pre.length v
      = (pre ++ [v]) ++ List.replicate m none := by
  simp [setNValue, List.set_append, List.replicate_succ]

theorem searchKeyLoop_stored (lookupType : IndexLookupType) (n : Nat) :
    ∀ (values : List NValue) (pre : TableTuple) (m : Nat), values.length ≤ m →
      searchKeyLoop lookupType n (storedKeys values) pre.length (pre ++ List.replicate m none)
        = KeyLoop.finished (pre ++ values ++ List.replicate (m - values.length) none) false := by
  intro values
  induction values with
  | nil => intro pre m _; simp [storedKeys, searchKeyLoop]
  | cons v vs ih =>
    intro pre m hm
    obtain ⟨m', rfl⟩ : ∃ m', m = m' + 1 := ⟨m - 1, by simp at hm; omega⟩
    have hvs : vs.length ≤ m' := by simp at hm; omega
    have := ih (pre ++ [v]) m' hvs
    simp only [storedKeys, List.map_cons, searchKeyLoop, set_after_stored] at this ⊢
    rw [List.length_append, List.length_singleton] at this
    rw [this]
    simp

theorem endKeyLoop_stored (schema : TupleSchema) (n : Nat) :
    ∀ (values : List NValue) (pre : TableTuple) (m : Nat), values.length ≤ m →
      endKeyLoop schema n (storedKeys values) pre.length (pre ++ List.replicate m none)
        = KeyLoop.finished (pre ++ values ++ List.replicate (m - values.length) none) false := by
  intro values
  induction values with
  | nil => intro pre m _; simp [storedKeys, endKeyLoop]
  | cons v vs ih =>
    intro pre m hm
    obtain ⟨m', rfl⟩ : ∃ m', m = m' + 1 := ⟨m - 1, by simp at hm; omega⟩
    have hvs : vs.length ≤ m' := by simp at hm; omega
    have := ih (pre ++ [v]) m' hvs
    simp only [storedKeys, List.map_cons, endKeyLoop, set_after_stored] at this ⊢
    rw [List.length_append, List.length_singleton] at this
    rw [this]
    simp

/-- The search-key loop over successful coercions builds the key padded with NULLs. -/
theorem searchKeyLoop_keyOf (schema : TupleSchema) (lookupType : IndexLookupType)
    (values : List NValue) (h : values.length ≤ schema.columnCount) :
    searchKeyLoop lookupType values.length ((storedKeys values).take values.length) 0
        (setAllNulls schema) = KeyLoop.finished (keyOf schema values) false := by
  have := searchKeyLoop_stored lookupType values.length values [] schema.columnCount h
  have htake : (storedKeys values).take values.length = storedKeys values := by
    simp [storedKeys]
  simpa [htake, setAllNulls, keyOf] using this

/-- The end-key loop over successful coercions builds the key padded with NULLs. -/
theorem endKeyLoop_keyOf (schema : TupleSchema) (values : List NValue)
    (h : values.length ≤ schema.columnCount) :
    endKeyLoop schema values.length ((storedKeys values).take values.length) 0
        (setAllNulls schema) = KeyLoop.finished (keyOf schema values) false := by
  have := endKeyLoop_stored schema values.length values [] schema.columnCount h
  have htake : (storedKeys values).take values.length = storedKeys values := by
    simp [storedKeys]
  simpa [htake, setAllNulls, keyOf] using this


theorem length_storedKeys (values : List NValue) : (storedKeys values).length = values.length := by
  simp [storedKeys]

theorem storedKeys_any_isNone (values : List NValue) :
    (storedKeys values).any (fun e => e.isNone) = false := by
  simp [storedKeys]

theorem p_init_stored (index : TableIndex) (lookupType endType : IndexLookupType)
    (searchValues endValues : List NValue) :
    IndexCountExecutor.p_init ⟨storedKeys searchValues, storedKeys endValues, lookupType, endType⟩
      index = some (storedExecutor index lookupType endType searchValues endValues) := by
  have h1 : (storedKeys searchValues).take (storedKeys searchValues).length
      = storedKeys searchValues := List.take_length _
  have h2 : (storedKeys endValues).take (storedKeys endValues).length
      = storedKeys endValues := List.take_length _
  simp only [IndexCountExecutor.p_init, h1, h2, storedKeys_any_isNone]
  simp [storedExecutor, length_storedKeys]

/-- With every key coercion successful, a run reaches the rank steps with the padded keys. -/
theorem run_stored (index : TableIndex) (lookupType endType : IndexLookupType)
    (searchValues endValues : List NValue) (out : TempTable)
    (hs : searchValues.length ≤ index.getKeySchema.columnCount)
    (he : endValues.length ≤ index.getKeySchema.columnCount) :
    IndexCountExecutor.run ⟨storedKeys searchValues, storedKeys endValues, lookupType, endType⟩
        index out
      = (storedExecutor index lookupType endType searchValues endValues).countRange
          (keyOf index.getKeySchema searchValues) false
          (if endValues.length ≠ 0 then keyOf index.getKeySchema endValues else []) false out := by
  rw [IndexCountExecutor.run, p_init_stored]
  simp only [IndexCountExecutor.p_execute]
  have h1 := searchKeyLoop_keyOf index.getKeySchema
    (storedExecutor index lookupType endType searchValues endValues).m_lookupType searchValues hs
  simp only [storedExecutor] at h1 ⊢
  rw [h1]
  by_cases hz : endValues.length ≠ 0
  · simp only [hz, if_true, ne_eq, not_false_eq_true]
    rw [endKeyLoop_keyOf index.getKeySchema endValues he]
  · simp only [hz, if_false]


/-! ## The count on `rankIndex` -/

theorem searchKeyLoop_skip_stored (lookupType : IndexLookupType) (n : Nat)
    (rest : List (Option KeyExpression)) :
    ∀ (values : List NValue) (ctr : Nat) (key : TableTuple),
      ∃ key', searchKeyLoop lookupType n (storedKeys values ++ rest) ctr key
        = searchKeyLoop lookupType n rest (ctr + values.length) key' := by
  intro values
  induction values with
  | nil => intro ctr key; exact ⟨key, by simp [storedKeys]⟩
  | cons v vs ih =>
    intro ctr key
    obtain ⟨key', h⟩ := ih (ctr + 1) (setNValue key ctr v)
    refine ⟨key', ?_⟩
    have hlen : ctr + (v :: vs).length = ctr + 1 + vs.length := by simp; omega
    rw [hlen, ← h]
    simp [storedKeys, searchKeyLoop]

theorem endKeyLoop_skip_stored (schema : TupleSchema) (n : Nat)
    (rest : List (Option KeyExpression)) :
    ∀ (values : List NValue) (ctr : Nat) (key : TableTuple),
      ∃ key', endKeyLoop schema n (storedKeys values ++ rest) ctr key
        = endKeyLoop schema n rest (ctr + values.length) key' := by
  intro values
  induction values with
  | nil => intro ctr key; exact ⟨key, by simp [storedKeys]⟩
  | cons v vs ih =>
    intro ctr key
    obtain ⟨key', h⟩ := ih (ctr + 1) (setNValue key ctr v)
    refine ⟨key', ?_⟩
    have hlen : ctr + (v :: vs).length = ctr + 1 + vs.length := by simp; omega
    rw [hlen, ← h]
    simp [storedKeys, endKeyLoop]

theorem endKeyLoop_stored_append (schema : TupleSchema) (n : Nat)
    (rest : List (Option KeyExpression)) :
    ∀ (values : List NValue) (pre : TableTuple) (m : Nat), values.length ≤ m →
      endKeyLoop schema n (storedKeys values ++ rest) pre.length (pre ++ List.replicate m none)
        = endKeyLoop schema n rest (pre.length + values.length)
            (pre ++ values ++ List.replicate (m - values.length) none) := by
  intro values
  induction values with
  | nil => intro pre m _; simp [storedKeys]
  | cons v vs ih =>
    intro pre m hm
    obtain ⟨m', rfl⟩ : ∃ m', m = m' + 1 := ⟨m - 1, by simp at hm; omega⟩
    have hvs : vs.length ≤ m' := by simp at hm; omega
    have := ih (pre ++ [v]) m' hvs
    simp only [storedKeys, List.map_cons, List.cons_append, endKeyLoop, set_after_stored,
      List.append_eq] at this ⊢
    rw [List.length_append, List.length_singleton] at this
    rw [this]
    have hlen : pre.length + 1 + vs.length = pre.length + (v :: vs).length := by simp; omega
    rw [hlen]
    simp

/-- The early exit of the search-key loop on a failing column that is not the last, or under
an equality lookup. -/
theorem searchKeyLoop_fail_zero (lookupType : IndexLookupType) (n : Nat) (values : List NValue)
    (e : SQLException) (rest : List (Option KeyExpression)) (key : TableTuple)
    (hflag : e.TYPE_OVERFLOW = true ∨ e.TYPE_UNDERFLOW = true)
    (hcase : lookupType = IndexLookupType.EQ ∨ values.length ≠ n - 1) :
    searchKeyLoop lookupType n (storedKeys values ++ some (Except.error e) :: rest) 0 key
      = KeyLoop.earlyZero := by
  obtain ⟨key', h⟩ := searchKeyLoop_skip_stored lookupType n (some (Except.error e) :: rest)
    values 0 key
  rw [h]
  have hnot : ¬ (e.TYPE_OVERFLOW = false ∧ e.TYPE_UNDERFLOW = false) := by
    rcases hflag with h | h <;> simp [h]
  have hbranch : ¬ (lookupType ≠ IndexLookupType.EQ ∧ 0 + values.length = n - 1) := by
    rcases hcase with h | h
    · simp [h]
    · intro hh; exact h (by omega)
  simp only [searchKeyLoop, hnot, hbranch, if_false]

/-- The early exit of the search-key loop on an overflow of the last column under a
comparison lookup. -/
theorem searchKeyLoop_overflow_zero (lookupType : IndexLookupType) (values : List NValue)
    (e : SQLException) (key : TableTuple) (hflag : e.TYPE_OVERFLOW = true) :
    searchKeyLoop lookupType (values.length + 1) (storedKeys values ++ [some (Except.error e)]) 0 key
      = KeyLoop.earlyZero := by
  obtain ⟨key', h⟩ := searchKeyLoop_skip_stored lookupType (values.length + 1)
    [some (Except.error e)] values 0 key
  rw [h]
  by_cases hlt : lookupType = IndexLookupType.EQ
  · simp [searchKeyLoop, hflag, hlt]
  · simp [searchKeyLoop, hflag, hlt]

/-- The search-key loop on an underflow of the last column under a comparison lookup:
it stops with the start-underflow flag set. -/
theorem searchKeyLoop_underflow (lookupType : IndexLookupType) (values : List NValue)
    (e : SQLException) (key : TableTuple) (hlt : lookupType ≠ IndexLookupType.EQ)
    (hover : e.TYPE_OVERFLOW = false) (hunder : e.TYPE_UNDERFLOW = true) :
    ∃ key', searchKeyLoop lookupType (values.length + 1)
        (storedKeys values ++ [some (Except.error e)]) 0 key = KeyLoop.finished key' true := by
  obtain ⟨key', h⟩ := searchKeyLoop_skip_stored lookupType (values.length + 1)
    [some (Except.error e)] values 0 key
  refine ⟨key', ?_⟩
  rw [h]
  simp [searchKeyLoop, hover, hunder, hlt]

/-- The early exit of the end-key loop on a failing column that is not the last. -/
theorem endKeyLoop_fail_zero (schema : TupleSchema) (n : Nat) (values : List NValue)
    (e : SQLException) (rest : List (Option KeyExpression)) (key : TableTuple)
    (hflag : e.TYPE_OVERFLOW = true ∨ e.TYPE_UNDERFLOW = true)
    (hcase : values.length ≠ n - 1) :
    endKeyLoop schema n (storedKeys values ++ some (Except.error e) :: rest) 0 key
      = KeyLoop.earlyZero := by
  obtain ⟨key', h⟩ := endKeyLoop_skip_stored schema n (some (Except.error e) :: rest) values 0 key
  rw [h]
  have hnot : ¬ (e.TYPE_OVERFLOW = false ∧ e.TYPE_UNDERFLOW = false) := by
    rcases hflag with h | h <;> simp [h]
  have hbranch : ¬ (0 + values.length = n - 1) := by
    intro hh; exact hcase (by omega)
  simp only [endKeyLoop, hnot, hbranch, if_false]

/-- The early exit of the end-key loop on an underflow of the last column. -/
theorem endKeyLoop_underflow_zero (schema : TupleSchema) (values : List NValue)
    (e : SQLException) (key : TableTuple) (hflag : e.TYPE_UNDERFLOW = true) :
    endKeyLoop schema (values.length + 1) (storedKeys values ++ [some (Except.error e)]) 0 key
      = KeyLoop.earlyZero := by
  obtain ⟨key', h⟩ := endKeyLoop_skip_stored schema (values.length + 1)
    [some (Except.error e)] values 0 key
  rw [h]
  simp [endKeyLoop, hflag]

/-- The end-key loop on an overflow of the last column: the column is clamped to the type
maximum and the end-overflow flag is set. -/
theorem endKeyLoop_overflow_clamped (schema : TupleSchema) (values : List NValue)
    (e : SQLException) (hover : e.TYPE_OVERFLOW = true) (hunder : e.TYPE_UNDERFLOW = false)
    (hlen : values.length < schema.columnCount) :
    endKeyLoop schema (values.length + 1) (storedKeys values ++ [some (Except.error e)]) 0
        (setAllNulls schema)
      = KeyLoop.finished
          (keyOf schema (values ++ [some (getMaxTypeValue (schema.columnType values.length))]))
          true := by
  have h := endKeyLoop_stored_append schema (values.length + 1) [some (Except.error e)] values []
    schema.columnCount (by omega)
  simp only [List.length_nil, List.nil_append, Nat.zero_add] at h
  rw [setAllNulls, h]
  obtain ⟨m', hm'⟩ : ∃ m', schema.columnCount - values.length = m' + 1 :=
    ⟨schema.columnCount - values.length - 1, by omega⟩
  simp only [endKeyLoop, hover, hunder, hm', set_after_stored]
  simp [keyOf]
  omega


/-! ## Range count against the reference scan -/

/-- Whatever the index answers: if the executor counts the index content `{2}` correctly for
`x > 0`, for `x > 3` and for `0 < x < 1`, then for the crossing range `3 < x < 1` it emits -1.
The ranks of a start key and of an end key are fixed by the non-crossing ranges, so no choice
of the index probes makes a crossing range count 0. -/
theorem crossing_count_forced (index : TableIndex) (t : ValueType)
    (hschema : index.getKeySchema = [t])
    (h1 : IndexCountExecutor.run ⟨storedKeys [some 0], [], IndexLookupType.GT, IndexLookupType.LT⟩
      index [] = Except.ok (true, [1]))
    (h2 : IndexCountExecutor.run ⟨storedKeys [some 3], [], IndexLookupType.GT, IndexLookupType.LT⟩
      index [] = Except.ok (true, [0]))
    (h3 : IndexCountExecutor.run
      ⟨storedKeys [some 0], storedKeys [some 1], IndexLookupType.GT, IndexLookupType.LT⟩
      index [] = Except.ok (true, [0])) :
    IndexCountExecutor.run
      ⟨storedKeys [some 3], storedKeys [some 1], IndexLookupType.GT, IndexLookupType.LT⟩
      index [] = Except.ok (true, [-1]) := by
  have hcc : index.getKeySchema.columnCount = 1 := by rw [hschema]; rfl
  rw [show ([] : List (Option KeyExpression)) = storedKeys [] from rfl] at h1 h2
  rw [run_stored _ _ _ _ _ _ (by rw [hcc]; simp) (by rw [hcc]; simp)] at h1 h2 h3 ⊢
  simp only [IndexCountExecutor.countRange, storedExecutor, startRank, endRank, hschema, keyOf,
    TupleSchema.columnCount] at h1 h2 h3 ⊢
  simp at h1 h2 h3 ⊢
  omega

/-- C2 (as amended): on the index `{1,2,2,3,5}` with the full-length start key 2, lookup type
greater-or-equal and no end-key expressions, the executor emits 4. There `hasKey(2)` is true,
one entry lies strictly before 2, the start rank `getCounterLET(2, false)` is 2 (the rank of
the first entry equal to 2, one more than the number of entries before it), `leftIncluded`
is 1, `rkEnd` is the index size 5 with `rightIncluded` 1, and the result is
`rkEnd - rkStart - 1 + leftIncluded + rightIncluded = 5 - 2 - 1 + 1 + 1`. -/
theorem indexCount_example_emits_four (t : ValueType) (out : TempTable) :
    (rankIndex [t] exampleEntries).hasKey [some 2] = true
    ∧ countBefore exampleEntries [some 2] = 1
    ∧ (rankIndex [t] exampleEntries).getCounterLET [some 2] false = 2
    ∧ (rankIndex [t] exampleEntries).getSize = 5
    ∧ startRank (rankIndex [t] exampleEntries) false IndexLookupType.GTE [some 2] 1 = some (2, 1)
    ∧ endRank (rankIndex [t] exampleEntries) 0 false IndexLookupType.INVALID [] = some (5, 1)
    ∧ IndexCountExecutor.run ⟨storedKeys [some 2], [], IndexLookupType.GTE, IndexLookupType.INVALID⟩
        (rankIndex [t] exampleEntries) out = Except.ok (true, out ++ [5 - 2 - 1 + 1 + 1])
    ∧ (5 - 2 - 1 + 1 + 1 : Int) = 4 :=
  ⟨by rfl, by rfl, by rfl, by rfl, by rfl, by rfl, by rfl, by rfl⟩

/-- Counterexample to C2 as stated: the start rank of the example is 2, not the number 1 of
entries strictly before the key; and no index whatsoever that reports `hasKey(2)`, a start
rank of 1 and the size 5 makes the executor emit 4 (it emits 5 - 1 - 1 + 1 + 1 = 5). -/
theorem indexCount_example_start_rank_not_one :
    (rankIndex [⟨127⟩] exampleEntries).getCounterLET [some 2] false = 2
    ∧ countBefore exampleEntries [some 2] = 1
    ∧ ¬ ∃ index : TableIndex, index.getKeySchema = [⟨127⟩] ∧ index.hasKey [some 2] = true
        ∧ index.getCounterLET [some 2] false = 1 ∧ index.getSize = 5
        ∧ IndexCountExecutor.run
            ⟨storedKeys [some 2], [], IndexLookupType.GTE, IndexLookupType.INVALID⟩ index []
          = Except.ok (true, [4]) := by
  refine ⟨by rfl, by rfl, ?_⟩
  rintro ⟨index, hschema, hk, hlet, hsize, hrun⟩
  have hcc : index.getKeySchema.columnCount = 1 := by rw [hschema]; rfl
  rw [show ([] : List (Option KeyExpression)) = storedKeys [] from rfl] at hrun
  rw [run_stored _ _ _ _ _ _ (by rw [hcc]; simp) (by rw [hcc]; simp)] at hrun
  simp only [IndexCountExecutor.countRange, storedExecutor, startRank, endRank, hschema, keyOf,
    TupleSchema.columnCount] at hrun
  simp [hk, hlet, hsize] at hrun

/-- C4: when an execution with zero end-key expressions reaches the combine step with the
start rank `rkStart` and flag `leftIncluded`, then `rkEnd` is the total index size and
`rightIncluded` is 1, and the emitted count is `size - rkStart - 1 + leftIncluded + 1`.
On the rank index this is the count of an upper bound that is unbounded above: an end key
(LT or LTE) above every index entry produces the same output. -/
theorem indexCount_no_end_key (self : IndexCountExecutor) (out : TempTable)
    (m_searchKey : TableTuple) (searchKeyUnderflow : Bool) (rkStart leftIncluded : Int)
    (hend : self.m_numOfEndkeys = 0)
    (hloop : searchKeyLoop self.m_lookupType self.m_numOfSearchkeys
      (self.m_abstractNode.searchKeyExpressions.take self.m_numOfSearchkeys) 0
      (setAllNulls self.m_index.getKeySchema) = KeyLoop.finished m_searchKey searchKeyUnderflow)
    (hstart : startRank self.m_index searchKeyUnderflow self.m_lookupType m_searchKey
      self.m_numOfSearchkeys = some (rkStart, leftIncluded)) :
    (∀ m_endKey endKeyOverflow, endRank self.m_index self.m_numOfEndkeys endKeyOverflow
        self.m_endType m_endKey = some (self.m_index.getSize, 1))
    ∧ self.p_execute out
        = Except.ok (true, out ++ [self.m_index.getSize - rkStart - 1 + leftIncluded + 1])
    ∧ (∀ (schema : TupleSchema) (entries : List TableTuple) (m_endKey : TableTuple)
        (endType : IndexLookupType) (numOfEndkeys : Nat),
        self.m_index = rankIndex schema entries → numOfEndkeys ≠ 0 →
        (endType = IndexLookupType.LT ∨ endType = IndexLookupType.LTE) →
        (∀ x ∈ entries, keyLess x m_endKey = true) →
        IndexCountExecutor.countRange
            { self with m_numOfEndkeys := numOfEndkeys, m_endType := endType }
            m_searchKey searchKeyUnderflow m_endKey false out
          = self.p_execute out) := by
  have hexec : self.p_execute out
      = Except.ok (true, out ++ [self.m_index.getSize - rkStart - 1 + leftIncluded + 1]) := by
    simp only [IndexCountExecutor.p_execute, hloop, hend, ne_eq, not_true_eq_false, if_false,
      IndexCountExecutor.countRange, hstart, endRank]
  refine ⟨?_, hexec, ?_⟩
  · intro m_endKey endKeyOverflow
    simp [endRank, hend]
  · intro schema entries m_endKey endType numOfEndkeys hidx hnum hty hall
    rw [hexec]
    have hnot : m_endKey ∉ entries := by
      intro hmem
      have := hall m_endKey hmem
      rw [keyLess_irrefl] at this
      exact absurd this (by decide)
    have hk : ¬ (rankIndex schema entries).hasKey m_endKey = true :=
      fun h => hnot ((hasKey_rankIndex _ _ _).mp h)
    have hget := getCounterGET_of_all_before schema entries m_endKey false hall
    have hsize : (rankIndex schema entries).getSize = entries.length := rfl
    simp only [IndexCountExecutor.countRange, hstart]
    rw [hidx] at hstart ⊢
    rcases hty with rfl | rfl
    · simp only [endRank, hnum, ne_eq, not_false_eq_true, if_true, Bool.false_eq_true, if_false,
        hget, hsize]
      have : (entries.length : Int) + 1 - rkStart - 1 + leftIncluded + 0
          = entries.length - rkStart - 1 + leftIncluded + 1 := by omega
      rw [this]
    · simp only [endRank, hnum, ne_eq, not_false_eq_true, if_true, Bool.false_eq_true, if_false,
        hget, hsize, hk]
      have : (entries.length : Int) + 1 - rkStart - 1 + leftIncluded + 0
          = entries.length - rkStart - 1 + leftIncluded + 1 := by omega
      simp [this]


/-- Witness for C4: the index `{1,2,2,3,5}`, start key 2 with GTE and no end key; the start
rank is 2 with `leftIncluded` 1 and the count is `5 - 2 - 1 + 1 + 1`. -/
theorem indexCount_no_end_key_witness :
    (storedExecutor (rankIndex [⟨127⟩] exampleEntries) IndexLookupType.GTE
        IndexLookupType.INVALID [some 2] []).p_execute []
      = Except.ok (true, [] ++ [5 - 2 - 1 + 1 + 1]) :=
  (indexCount_no_end_key
    (storedExecutor (rankIndex [⟨127⟩] exampleEntries) IndexLookupType.GTE
      IndexLookupType.INVALID [some 2] [])
    [] [some 2] false 2 1 (by rfl) (by rfl) (by rfl)).2.1

/-- C5: for every index, every end configuration and every list of search-key expressions
shorter than the index key schema, initialising and executing with start lookup type EQ gives
exactly the outcome (success flag and output) of start lookup type GTE on the same
expressions: `p_init` records GTE as the lookup type in both cases. -/
theorem indexCount_eq_on_short_key_is_gte (node : IndexCountPlanNode) (index : TableIndex)
    (out : TempTable)
    (hshort : node.searchKeyExpressions.length < index.getKeySchema.columnCount) :
    IndexCountExecutor.run { node with lookupType := IndexLookupType.EQ } index out
      = IndexCountExecutor.run { node with lookupType := IndexLookupType.GTE } index out
    ∧ (∀ executor, IndexCountExecutor.p_init { node with lookupType := IndexLookupType.EQ } index
          = some executor → executor.m_lookupType = IndexLookupType.GTE) := by
  constructor
  · simp only [IndexCountExecutor.run, IndexCountExecutor.p_init]
    split_ifs <;>
      simp_all [IndexCountExecutor.p_execute, IndexCountExecutor.countRange]
  · intro executor hinit
    simp only [IndexCountExecutor.p_init] at hinit
    split_ifs at hinit <;> simp_all
    all_goals (subst hinit; rfl)

/-- Witness for C5: one search-key expression on a two-column key, end key `(4, 9)` with LT. -/
theorem indexCount_eq_on_short_key_is_gte_witness :
    IndexCountExecutor.run
        { ({ searchKeyExpressions := storedKeys [some 4], endKeyExpressions := storedKeys [some 4, some 9],
             lookupType := IndexLookupType.INVALID, endType := IndexLookupType.LT } :
            IndexCountPlanNode) with lookupType := IndexLookupType.EQ }
        (rankIndex [⟨127⟩, ⟨127⟩] [[some 4, some 1], [some 4, some 12], [some 5, some 0]]) []
      = IndexCountExecutor.run
        { ({ searchKeyExpressions := storedKeys [some 4], endKeyExpressions := storedKeys [some 4, some 9],
             lookupType := IndexLookupType.INVALID, endType := IndexLookupType.LT } :
            IndexCountPlanNode) with lookupType := IndexLookupType.GTE }
        (rankIndex [⟨127⟩, ⟨127⟩] [[some 4, some 1], [some 4, some 12], [some 5, some 0]]) [] :=
  (indexCount_eq_on_short_key_is_gte
    { searchKeyExpressions := storedKeys [some 4], endKeyExpressions := storedKeys [some 4, some 9],
      lookupType := IndexLookupType.INVALID, endType := IndexLookupType.LT }
    (rankIndex [⟨127⟩, ⟨127⟩] [[some 4, some 1], [some 4, some 12], [some 5, some 0]]) []
    (by decide)).1


/-! ## Overflow and underflow of the start key -/

theorem storedKeys_append_any_isNone (values : List NValue) (e : SQLException)
    (rest : List (Option KeyExpression)) :
    (storedKeys values ++ some (Except.error e) :: rest).any (fun x => x.isNone)
      = rest.any (fun x => x.isNone) := by
  simp [storedKeys]

/-- C6: whenever the coercion of the last search-key column overflows (the earlier columns
having been stored), `p_execute` succeeds and emits the count 0, whatever the index, the
lookup type (GT and GTE in particular) and the end key: the outcome is the same for every
index put in place of the bound one, so no rank query decides it. -/
theorem indexCount_start_overflow_zero (self : IndexCountExecutor) (out : TempTable)
    (values : List NValue) (e : SQLException)
    (hexprs : self.m_abstractNode.searchKeyExpressions
      = storedKeys values ++ [some (Except.error e)])
    (hnum : self.m_numOfSearchkeys = values.length + 1)
    (hflag : e.TYPE_OVERFLOW = true) :
    self.p_execute out = Except.ok (true, out ++ [0])
    ∧ ∀ index : TableIndex,
        IndexCountExecutor.p_execute { self with m_index := index } out
          = Except.ok (true, out ++ [0]) := by
  have htake : (storedKeys values ++ [some (Except.error e)]).take (values.length + 1)
      = storedKeys values ++ [some (Except.error e)] :=
    List.take_of_length_le (by simp [storedKeys])
  constructor
  · simp only [IndexCountExecutor.p_execute, hexprs, hnum, htake,
      searchKeyLoop_overflow_zero _ values e _ hflag]
  · intro index
    simp only [IndexCountExecutor.p_execute, hexprs, hnum, htake,
      searchKeyLoop_overflow_zero _ values e _ hflag]

/-- Witness for C6: a two-column key `(4, overflow)` with GT on the index of the example
schema extended to two columns. -/
theorem indexCount_start_overflow_zero_witness :
    IndexCountExecutor.p_execute
        { m_abstractNode := ⟨storedKeys [some 4] ++ [some (Except.error ⟨true, false⟩)],
            storedKeys [some 9], IndexLookupType.GT, IndexLookupType.LT⟩
          m_index := rankIndex [⟨127⟩, ⟨127⟩] [[some 4, some 1], [some 5, some 0]]
          m_numOfSearchkeys := 2, m_numOfEndkeys := 1
          m_lookupType := IndexLookupType.GT, m_endType := IndexLookupType.LT } [7]
      = Except.ok (true, [7] ++ [0]) :=
  (indexCount_start_overflow_zero _ [7] [some 4] ⟨true, false⟩ rfl rfl rfl).1

/-- C8 (as amended): whenever the coercion of the last end-key column overflows (the
earlier end-key columns having been stored), that column is clamped to the type maximum;
when every index entry is ordered strictly before the clamped end key, the outcome for every
start configuration is the outcome of the same query with no end-key expressions at all. -/
theorem indexCount_end_overflow_unbounded (schema : TupleSchema) (entries : List TableTuple)
    (searchKeyExpressions : List (Option KeyExpression)) (lookupType endType : IndexLookupType)
    (endValues : List NValue) (e : SQLException) (out : TempTable)
    (hover : e.TYPE_OVERFLOW = true) (hunder : e.TYPE_UNDERFLOW = false)
    (hlen : endValues.length < schema.columnCount)
    (hall : ∀ x ∈ entries, keyLess x (keyOf schema
      (endValues ++ [some (getMaxTypeValue (schema.columnType endValues.length))])) = true) :
    IndexCountExecutor.run
        ⟨searchKeyExpressions, storedKeys endValues ++ [some (Except.error e)], lookupType, endType⟩
        (rankIndex schema entries) out
      = IndexCountExecutor.run ⟨searchKeyExpressions, [], lookupType, endType⟩
          (rankIndex schema entries) out := by
  have hschema : (rankIndex schema entries).getKeySchema = schema := rfl
  have hsize : (rankIndex schema entries).getSize = entries.length := rfl
  have hlenE : (storedKeys endValues ++ [some (Except.error e)]).length
      = endValues.length + 1 := by simp [storedKeys]
  have htakeE : (storedKeys endValues ++ [some (Except.error e)]).take (endValues.length + 1)
      = storedKeys endValues ++ [some (Except.error e)] :=
    List.take_of_length_le (by simp [storedKeys])
  have hget := getCounterGET_of_all_before schema entries _ true hall
  simp only [IndexCountExecutor.run, IndexCountExecutor.p_init, hlenE, htakeE,
    storedKeys_append_any_isNone, List.any_nil, Bool.false_eq_true, and_false, if_false,
    List.length_nil, ne_eq, not_true_eq_false, false_and, List.take_nil]
  by_cases hnull : (searchKeyExpressions.take searchKeyExpressions.length).any
      (fun x => x.isNone) = true
  · simp only [hnull, if_true]
  · simp only [hnull, if_false, IndexCountExecutor.p_execute, hschema, List.take_nil,
      Bool.false_eq_true]
    generalize (if lookupType = IndexLookupType.EQ ∧
        schema.columnCount > searchKeyExpressions.length
        then IndexLookupType.GTE else lookupType) = normalised
    generalize searchKeyLoop normalised searchKeyExpressions.length
        (searchKeyExpressions.take searchKeyExpressions.length) 0 (setAllNulls schema) = loop
    cases loop with
    | earlyZero => rfl
    | rethrow ex => rfl
    | nullExpression => rfl
    | finished m_searchKey searchKeyUnderflow =>
      simp only [Nat.add_one_ne_zero, not_false_eq_true, if_true, if_false, not_true_eq_false,
        htakeE, ne_eq,
        endKeyLoop_overflow_clamped schema endValues e hover hunder hlen,
        IndexCountExecutor.countRange, hschema]
      generalize startRank (rankIndex schema entries) searchKeyUnderflow normalised
          m_searchKey searchKeyExpressions.length = start
      cases start with
      | none => rfl
      | some pair =>
        obtain ⟨rkStart, leftIncluded⟩ := pair
        simp only [endRank, Nat.add_one_ne_zero, ne_eq, not_false_eq_true, if_true, hget, hsize,
          not_true_eq_false, if_false]
        have : (entries.length : Int) + 1 - rkStart - 1 + leftIncluded + 0
            = entries.length - rkStart - 1 + leftIncluded + 1 := by omega
        rw [this]

/-- Witness for C8: a one-column index `{1,2,2,3,5}` below the type maximum 127, start
`x > 2`, end key overflowing: the count 2 of `x > 2` with no end key. -/
theorem indexCount_end_overflow_unbounded_witness :
    IndexCountExecutor.run
        ⟨storedKeys [some 2], storedKeys [] ++ [some (Except.error ⟨true, false⟩)],
          IndexLookupType.GT, IndexLookupType.LT⟩ (rankIndex [⟨127⟩] exampleEntries) []
      = IndexCountExecutor.run ⟨storedKeys [some 2], [], IndexLookupType.GT, IndexLookupType.LT⟩
          (rankIndex [⟨127⟩] exampleEntries) []
    ∧ IndexCountExecutor.run ⟨storedKeys [some 2], [], IndexLookupType.GT, IndexLookupType.LT⟩
          (rankIndex [⟨127⟩] exampleEntries) [] = Except.ok (true, [2]) :=
  ⟨indexCount_end_overflow_unbounded [⟨127⟩] exampleEntries (storedKeys [some 2])
      IndexLookupType.GT IndexLookupType.LT [] ⟨true, false⟩ [] rfl rfl (by decide) (by decide),
    by rfl⟩

/-- Counterexample to C8 as stated: on the two-column index `{(5,1), (6,0)}` the end key
`(5, overflow)` with LT is clamped to `(5, 127)` and the executor counts 1 entry, while the
same query with no end-key expressions counts 2. -/
theorem indexCount_end_overflow_clamps :
    IndexCountExecutor.run
        ⟨[], storedKeys [some 5] ++ [some (Except.error ⟨true, false⟩)],
          IndexLookupType.GTE, IndexLookupType.LT⟩
        (rankIndex [⟨127⟩, ⟨127⟩] [[some 5, some 1], [some 6, some 0]]) []
      = Except.ok (true, [1])
    ∧ IndexCountExecutor.run ⟨[], [], IndexLookupType.GTE, IndexLookupType.LT⟩
        (rankIndex [⟨127⟩, ⟨127⟩] [[some 5, some 1], [some 6, some 0]]) []
      = Except.ok (true, [2]) :=
  ⟨by rfl, by rfl⟩


/-- The slip beside C8: on the one-column index `{127}` whose entry equals the type maximum,
an overflowing end key with LT makes the executor count 0 entries, one less than the same
query with no end-key expressions: the closed upper probe at the clamped key is combined
with `rightIncluded = 0`. -/
theorem indexCount_end_overflow_tie_at_maximum :
    IndexCountExecutor.run
        ⟨[], storedKeys [] ++ [some (Except.error ⟨true, false⟩)],
          IndexLookupType.GTE, IndexLookupType.LT⟩ (rankIndex [⟨127⟩] [[some 127]]) []
      = Except.ok (true, [0])
    ∧ IndexCountExecutor.run ⟨[], [], IndexLookupType.GTE, IndexLookupType.LT⟩
        (rankIndex [⟨127⟩] [[some 127]]) []
      = Except.ok (true, [1]) :=
  ⟨by rfl, by rfl⟩

/-- The slip beside C1 and C3: a GTE start key of fewer columns than the schema whose
NULL-padded key equals an index entry. The start step takes the rank of the first entry
equal to the padded key (`hasKey` is true) and then adds 1 for the short key (lines 254-267),
which drops one entry. On `{(4,NULL), (4,1), (5,0)}` the range `a >= 4` emits 2 where the scan
finds 3 entries; on `{(4,NULL)}` the empty range `a >= 4 and a < 4` emits -1. -/
theorem indexCount_short_gte_key_tie :
    IndexCountExecutor.run
        ⟨storedKeys [some 4], [], IndexLookupType.GTE, IndexLookupType.INVALID⟩
        (rankIndex [⟨127⟩, ⟨127⟩] [[some 4, none], [some 4, some 1], [some 5, some 0]]) []
      = Except.ok (true, [2])
    ∧ rangeCount [[some 4, none], [some 4, some 1], [some 5, some 0]] IndexLookupType.GTE
        [some 4] IndexLookupType.INVALID [] = 3
    ∧ IndexCountExecutor.run
        ⟨storedKeys [some 4], storedKeys [some 4], IndexLookupType.GTE, IndexLookupType.LT⟩
        (rankIndex [⟨127⟩, ⟨127⟩] [[some 4, none]]) []
      = Except.ok (true, [-1])
    ∧ rangeCount [[some 4, none]] IndexLookupType.GTE [some 4] IndexLookupType.LT [some 4] = 0 :=
  ⟨by rfl, by decide, by rfl, by decide⟩

/-- The slip beside C1, C3 and C7: an overflowing end key on the one-column index `{127}`,
whose entry equals the clamped end key. The closed upper probe at the clamped key is combined
with `rightIncluded = 0` (line 275), which drops the entry. With the start key 127 under GT
the code emits -1; with an underflowing start key it emits 0, against 1 with no end key; with
no start key it emits 0. For every end value `v` above the type maximum 127 the scan finds 0
entries in `127 < x < v` and the 1 entry in `x < v`. -/
theorem indexCount_end_overflow_tie_miscounts :
    IndexCountExecutor.run
        ⟨storedKeys [some 127], storedKeys [] ++ [some (Except.error ⟨true, false⟩)],
          IndexLookupType.GT, IndexLookupType.LT⟩ (rankIndex [⟨127⟩] [[some 127]]) []
      = Except.ok (true, [-1])
    ∧ IndexCountExecutor.run
        ⟨storedKeys [] ++ [some (Except.error ⟨false, true⟩)],
          storedKeys [] ++ [some (Except.error ⟨true, false⟩)],
          IndexLookupType.GT, IndexLookupType.LT⟩ (rankIndex [⟨127⟩] [[some 127]]) []
      = Except.ok (true, [0])
    ∧ IndexCountExecutor.run
        ⟨storedKeys [] ++ [some (Except.error ⟨false, true⟩)], [],
          IndexLookupType.GT, IndexLookupType.LT⟩ (rankIndex [⟨127⟩] [[some 127]]) []
      = Except.ok (true, [1])
    ∧ IndexCountExecutor.run
        ⟨[], storedKeys [] ++ [some (Except.error ⟨true, false⟩)],
          IndexLookupType.GTE, IndexLookupType.LT⟩ (rankIndex [⟨127⟩] [[some 127]]) []
      = Except.ok (true, [0])
    ∧ ∀ v : Int, 127 < v →
        rangeCount [[some 127]] IndexLookupType.GT [some 127] IndexLookupType.LT [some v] = 0
        ∧ rangeCount [[some 127]] IndexLookupType.GTE [] IndexLookupType.LT [some v] = 1
        ∧ ([[some 127]].countP (meetsEndOn IndexLookupType.LT [some v]) : Int) = 1 := by
  refine ⟨by rfl, by rfl, by rfl, by rfl, ?_⟩
  intro v hv
  have hend : meetsEndOn IndexLookupType.LT [some v] [some 127] = true := by
    simp [meetsEndOn, meetsEnd, keyLess, nvalueLess, hv]
  have hgt : meetsStartOn IndexLookupType.GT [some 127] [some 127] = false := by decide
  have hgte : meetsStartOn IndexLookupType.GTE [] [some 127] = true := by decide
  refine ⟨?_, ?_, ?_⟩
  · simp [rangeCount, List.countP_cons, hgt]
  · simp [rangeCount, List.countP_cons, hgte, hend]
  · simp [List.countP_cons, hend]

/-! ## Early exits with the count 0 -/

/-- The four early exits of C9, for one executor state. -/
theorem p_execute_failure_zero (self : IndexCountExecutor) (out : TempTable)
    (values : List NValue) (e : SQLException) (rest : List (Option KeyExpression))
    (hflag : e.TYPE_OVERFLOW = true ∨ e.TYPE_UNDERFLOW = true)
    (hcase :
      (self.m_abstractNode.searchKeyExpressions = storedKeys values ++ some (Except.error e) :: rest
        ∧ self.m_numOfSearchkeys = values.length + 1 + rest.length
        ∧ self.m_lookupType = IndexLookupType.EQ)
      ∨ (self.m_abstractNode.searchKeyExpressions
          = storedKeys values ++ some (Except.error e) :: rest
        ∧ self.m_numOfSearchkeys = values.length + 1 + rest.length
        ∧ rest ≠ [])
      ∨ ((∃ key flag, searchKeyLoop self.m_lookupType self.m_numOfSearchkeys
            (self.m_abstractNode.searchKeyExpressions.take self.m_numOfSearchkeys) 0
            (setAllNulls self.m_index.getKeySchema) = KeyLoop.finished key flag)
        ∧ self.m_abstractNode.endKeyExpressions
          = storedKeys values ++ some (Except.error e) :: rest
        ∧ self.m_numOfEndkeys = values.length + 1 + rest.length
        ∧ rest ≠ [])
      ∨ ((∃ key flag, searchKeyLoop self.m_lookupType self.m_numOfSearchkeys
            (self.m_abstractNode.searchKeyExpressions.take self.m_numOfSearchkeys) 0
            (setAllNulls self.m_index.getKeySchema) = KeyLoop.finished key flag)
        ∧ self.m_abstractNode.endKeyExpressions
          = storedKeys values ++ some (Except.error e) :: rest
        ∧ self.m_numOfEndkeys = values.length + 1 + rest.length
        ∧ rest = [] ∧ e.TYPE_UNDERFLOW = true)) :
    self.p_execute out = Except.ok (true, out ++ [0]) := by
  have htake : (storedKeys values ++ some (Except.error e) :: rest).take
      (values.length + 1 + rest.length) = storedKeys values ++ some (Except.error e) :: rest :=
    List.take_of_length_le (by simp [storedKeys]; omega)
  have hrest : rest ≠ [] → values.length ≠ values.length + 1 + rest.length - 1 := by
    intro h
    have : rest.length ≠ 0 := by simpa using h
    omega
  rcases hcase with ⟨hx, hn, hty⟩ | ⟨hx, hn, hr⟩ | ⟨⟨key, flag, hloop⟩, hx, hn, hr⟩
      | ⟨⟨key, flag, hloop⟩, hx, hn, hr, hu⟩
  · simp only [IndexCountExecutor.p_execute, hx, hn, htake,
      searchKeyLoop_fail_zero _ _ values e rest _ hflag (Or.inl hty)]
  · simp only [IndexCountExecutor.p_execute, hx, hn, htake,
      searchKeyLoop_fail_zero _ _ values e rest _ hflag (Or.inr (hrest hr))]
  · have hne : values.length + 1 + rest.length ≠ 0 := by omega
    simp only [IndexCountExecutor.p_execute, hloop, hx, hn, htake, hne, ne_eq,
      not_false_eq_true, if_true,
      endKeyLoop_fail_zero _ _ values e rest _ hflag (hrest hr)]
  · subst hr
    have hne : values.length + 1 + ([] : List (Option KeyExpression)).length ≠ 0 := by omega
    have hz := endKeyLoop_underflow_zero self.m_index.getKeySchema values e
      (setAllNulls self.m_index.getKeySchema) hu
    simp only [List.length_nil, Nat.add_zero] at htake hn hne
    simp only [IndexCountExecutor.p_execute, hloop, hx, hn, htake, hne, ne_eq,
      not_false_eq_true, if_true, hz]


/-- C9: a coercion overflow or underflow (the earlier columns of the key having been stored)
makes `p_execute` succeed with the count 0 in each of these cases: (a) start key under the
equality lookup type; (b) start key, the failing column is not the last search-key column;
(c) end key, the failing column is not the last end-key column; (d) end key, the last
column underflows. The outcome is the same for every index of the same key schema put in
place of the bound one, so no index query decides it. -/
theorem indexCount_coercion_failure_zero (self : IndexCountExecutor) (out : TempTable)
    (values : List NValue) (e : SQLException) (rest : List (Option KeyExpression))
    (hflag : e.TYPE_OVERFLOW = true ∨ e.TYPE_UNDERFLOW = true)
    (hcase :
      (self.m_abstractNode.searchKeyExpressions = storedKeys values ++ some (Except.error e) :: rest
        ∧ self.m_numOfSearchkeys = values.length + 1 + rest.length
        ∧ self.m_lookupType = IndexLookupType.EQ)
      ∨ (self.m_abstractNode.searchKeyExpressions
          = storedKeys values ++ some (Except.error e) :: rest
        ∧ self.m_numOfSearchkeys = values.length + 1 + rest.length
        ∧ rest ≠ [])
      ∨ ((∃ key flag, searchKeyLoop self.m_lookupType self.m_numOfSearchkeys
            (self.m_abstractNode.searchKeyExpressions.take self.m_numOfSearchkeys) 0
            (setAllNulls self.m_index.getKeySchema) = KeyLoop.finished key flag)
        ∧ self.m_abstractNode.endKeyExpressions
          = storedKeys values ++ some (Except.error e) :: rest
        ∧ self.m_numOfEndkeys = values.length + 1 + rest.length
        ∧ rest ≠ [])
      ∨ ((∃ key flag, searchKeyLoop self.m_lookupType self.m_numOfSearchkeys
            (self.m_abstractNode.searchKeyExpressions.take self.m_numOfSearchkeys) 0
            (setAllNulls self.m_index.getKeySchema) = KeyLoop.finished key flag)
        ∧ self.m_abstractNode.endKeyExpressions
          = storedKeys values ++ some (Except.error e) :: rest
        ∧ self.m_numOfEndkeys = values.length + 1 + rest.length
        ∧ rest = [] ∧ e.TYPE_UNDERFLOW = true)) :
    self.p_execute out = Except.ok (true, out ++ [0])
    ∧ ∀ index : TableIndex, index.getKeySchema = self.m_index.getKeySchema →
        IndexCountExecutor.p_execute { self with m_index := index } out
          = Except.ok (true, out ++ [0]) := by
  refine ⟨p_execute_failure_zero self out values e rest hflag hcase, ?_⟩
  intro index hschema
  apply p_execute_failure_zero { self with m_index := index } out values e rest hflag
  simpa only [hschema] using hcase

/-- Witness for C9: (a) the full-length key `(overflow)` under EQ, and (d) the end key
`(underflow)` under LT after the start key 2 was stored, both on the index `{1,2,2,3,5}`. -/
theorem indexCount_coercion_failure_zero_witness :
    IndexCountExecutor.p_execute
        { m_abstractNode := ⟨storedKeys [] ++ some (Except.error ⟨true, false⟩) :: [], [],
            IndexLookupType.EQ, IndexLookupType.INVALID⟩
          m_index := rankIndex [⟨127⟩] exampleEntries
          m_numOfSearchkeys := 1, m_numOfEndkeys := 0
          m_lookupType := IndexLookupType.EQ, m_endType := IndexLookupType.INVALID } []
      = Except.ok (true, [] ++ [0])
    ∧ IndexCountExecutor.p_execute
        { m_abstractNode := ⟨storedKeys [some 2],
            storedKeys [] ++ some (Except.error ⟨false, true⟩) :: [],
            IndexLookupType.GT, IndexLookupType.LT⟩
          m_index := rankIndex [⟨127⟩] exampleEntries
          m_numOfSearchkeys := 1, m_numOfEndkeys := 1
          m_lookupType := IndexLookupType.GT, m_endType := IndexLookupType.LT } []
      = Except.ok (true, [] ++ [0]) :=
  ⟨(indexCount_coercion_failure_zero _ [] [] ⟨true, false⟩ [] (Or.inl rfl)
      (Or.inl ⟨rfl, rfl, rfl⟩)).1,
   (indexCount_coercion_failure_zero _ [] [] ⟨false, true⟩ [] (Or.inr rfl)
      (Or.inr (Or.inr (Or.inr ⟨⟨[some 2], false, by rfl⟩, rfl, rfl, rfl, rfl⟩)))).1⟩

/-! ## Unsupported lookup types -/

/-- C10 (as amended): in every execution in which no key coercion overflows or underflows,
if the start lookup type recorded by `p_init` is outside GT, GTE, or end-key expressions
exist and the end lookup type is outside LT, LTE, then the operator returns false and the
output table is unchanged. -/
theorem indexCount_unsupported_type_fails (index : TableIndex)
    (lookupType endType : IndexLookupType) (searchValues endValues : List NValue)
    (out : TempTable)
    (hs : searchValues.length ≤ index.getKeySchema.columnCount)
    (he : endValues.length ≤ index.getKeySchema.columnCount)
    (hbad :
      ((storedExecutor index lookupType endType searchValues endValues).m_lookupType
          ≠ IndexLookupType.GT
        ∧ (storedExecutor index lookupType endType searchValues endValues).m_lookupType
          ≠ IndexLookupType.GTE)
      ∨ (endValues ≠ [] ∧ endType ≠ IndexLookupType.LT ∧ endType ≠ IndexLookupType.LTE)) :
    IndexCountExecutor.p_init ⟨storedKeys searchValues, storedKeys endValues, lookupType, endType⟩
        index = some (storedExecutor index lookupType endType searchValues endValues)
    ∧ IndexCountExecutor.run
        ⟨storedKeys searchValues, storedKeys endValues, lookupType, endType⟩ index out
      = Except.ok (false, out) := by
  refine ⟨p_init_stored _ _ _ _ _, ?_⟩
  rw [run_stored _ _ _ _ _ _ hs he]
  simp only [IndexCountExecutor.countRange]
  rcases hbad with ⟨h1, h2⟩ | ⟨h1, h2, h3⟩
  · have : startRank (storedExecutor index lookupType endType searchValues endValues).m_index
        false (storedExecutor index lookupType endType searchValues endValues).m_lookupType
        (keyOf index.getKeySchema searchValues)
        (storedExecutor index lookupType endType searchValues endValues).m_numOfSearchkeys
        = none := by
      simp [startRank, h1, h2]
    rw [this]
  · have hlen : endValues.length ≠ 0 := by simpa using h1
    have : endRank (storedExecutor index lookupType endType searchValues endValues).m_index
        (storedExecutor index lookupType endType searchValues endValues).m_numOfEndkeys false
        (storedExecutor index lookupType endType searchValues endValues).m_endType
        (if endValues.length ≠ 0 then keyOf index.getKeySchema endValues else []) = none := by
      simp [endRank, storedExecutor, hlen, h2, h3]
    rw [this]
    split <;> rfl

/-- Witness for C10: the full-length key 2 under the equality lookup type on `{1,2,2,3,5}`. -/
theorem indexCount_unsupported_type_fails_witness :
    IndexCountExecutor.run ⟨storedKeys [some 2], storedKeys [], IndexLookupType.EQ,
        IndexLookupType.INVALID⟩ (rankIndex [⟨127⟩] exampleEntries) [7]
      = Except.ok (false, [7]) :=
  (indexCount_unsupported_type_fails (rankIndex [⟨127⟩] exampleEntries) IndexLookupType.EQ
    IndexLookupType.INVALID [some 2] [] [7] (by decide) (by decide)
    (Or.inl ⟨by decide, by decide⟩)).2

/-- Counterexample to C10 as stated: with a full-length key `p_init` keeps the equality
lookup type, which is outside GT, GTE; when the coercion of that key overflows, `p_execute`
returns true and emits the row 0 instead of failing. -/
theorem indexCount_eq_overflow_succeeds :
    ∃ executor : IndexCountExecutor,
      IndexCountExecutor.p_init
          ⟨[some (Except.error ⟨true, false⟩)], [], IndexLookupType.EQ, IndexLookupType.INVALID⟩
          (rankIndex [⟨127⟩] exampleEntries) = some executor
      ∧ executor.m_lookupType = IndexLookupType.EQ
      ∧ executor.p_execute [] = Except.ok (true, [0]) :=
  ⟨_, rfl, rfl, rfl⟩


/-! ## Boundary conditions never fail the count -/

theorem searchKeyLoop_boundary (lookupType : IndexLookupType) (n : Nat) :
    ∀ (exprs : List (Option KeyExpression)) (ctr : Nat) (key : TableTuple),
      (∀ x ∈ exprs, boundaryOutcome x = true) →
      searchKeyLoop lookupType n exprs ctr key = KeyLoop.earlyZero
        ∨ ∃ key' flag, searchKeyLoop lookupType n exprs ctr key = KeyLoop.finished key' flag := by
  intro exprs
  induction exprs with
  | nil => intro ctr key _; exact Or.inr ⟨key, false, rfl⟩
  | cons x xs ih =>
    intro ctr key h
    have hx := h x (List.mem_cons_self _ _)
    have hxs : ∀ y ∈ xs, boundaryOutcome y = true := fun y hy => h y (List.mem_cons_of_mem _ hy)
    match x, hx with
    | some (Except.ok v), _ =>
      simpa only [searchKeyLoop] using ih (ctr + 1) (setNValue key ctr v) hxs
    | some (Except.error e), hx =>
      have hflag : e.TYPE_OVERFLOW = true ∨ e.TYPE_UNDERFLOW = true := by
        simpa [boundaryOutcome] using hx
      have hnot : ¬ (e.TYPE_OVERFLOW = false ∧ e.TYPE_UNDERFLOW = false) := by
        rcases hflag with h | h <;> simp [h]
      simp only [searchKeyLoop, hnot, if_false]
      split_ifs with h1 h2 h3
      · exact Or.inl rfl
      · exact Or.inr ⟨key, true, rfl⟩
      · rcases hflag with h | h
        · exact absurd h h2
        · exact absurd h h3
      · exact Or.inl rfl

theorem endKeyLoop_boundary (schema : TupleSchema) (n : Nat) :
    ∀ (exprs : List (Option KeyExpression)) (ctr : Nat) (key : TableTuple),
      (∀ x ∈ exprs, boundaryOutcome x = true) →
      endKeyLoop schema n exprs ctr key = KeyLoop.earlyZero
        ∨ ∃ key' flag, endKeyLoop schema n exprs ctr key = KeyLoop.finished key' flag := by
  intro exprs
  induction exprs with
  | nil => intro ctr key _; exact Or.inr ⟨key, false, rfl⟩
  | cons x xs ih =>
    intro ctr key h
    have hx := h x (List.mem_cons_self _ _)
    have hxs : ∀ y ∈ xs, boundaryOutcome y = true := fun y hy => h y (List.mem_cons_of_mem _ hy)
    match x, hx with
    | some (Except.ok v), _ =>
      simpa only [endKeyLoop] using ih (ctr + 1) (setNValue key ctr v) hxs
    | some (Except.error e), hx =>
      have hflag : e.TYPE_OVERFLOW = true ∨ e.TYPE_UNDERFLOW = true := by
        simpa [boundaryOutcome] using hx
      have hnot : ¬ (e.TYPE_OVERFLOW = false ∧ e.TYPE_UNDERFLOW = false) := by
        rcases hflag with h | h <;> simp [h]
      simp only [endKeyLoop, hnot, if_false]
      split_ifs with h1 h2 h3
      · exact Or.inl rfl
      · exact Or.inr ⟨_, true, rfl⟩
      · rcases hflag with h | h
        · exact absurd h h3
        · exact absurd h h2
      · exact Or.inl rfl

theorem startRank_supported (index : TableIndex) (flag : Bool) (lookupType : IndexLookupType)
    (key : TableTuple) (n : Nat)
    (hlt : lookupType = IndexLookupType.GT ∨ lookupType = IndexLookupType.GTE) :
    ∃ rkStart leftIncluded, startRank index flag lookupType key n = some (rkStart, leftIncluded) := by
  have h : (startRank index flag lookupType key n).isSome = true := by
    unfold startRank
    rcases hlt with rfl | rfl <;> split_ifs <;> simp_all
  obtain ⟨pair, hp⟩ := Option.isSome_iff_exists.mp h
  exact ⟨pair.1, pair.2, hp⟩

theorem endRank_supported (index : TableIndex) (n : Nat) (flag : Bool) (endType : IndexLookupType)
    (key : TableTuple)
    (het : n = 0 ∨ endType = IndexLookupType.LT ∨ endType = IndexLookupType.LTE) :
    ∃ rkEnd rightIncluded, endRank index n flag endType key = some (rkEnd, rightIncluded) := by
  have h : (endRank index n flag endType key).isSome = true := by
    unfold endRank
    rcases het with rfl | rfl | rfl <;> split_ifs <;> simp_all
  obtain ⟨pair, hp⟩ := Option.isSome_iff_exists.mp h
  exact ⟨pair.1, pair.2, hp⟩

/-- C11: with supported lookup types (start GT or GTE as recorded by `p_init`, end LT or LTE
when there are end keys), and key expressions whose coercions succeed or signal overflow or
underflow, `p_execute` never fails and never lets an exception out: it returns true and
appends one row, whatever the index; the boundary conditions only affect the count. -/
theorem indexCount_boundary_never_fails (self : IndexCountExecutor) (out : TempTable)
    (hs : ∀ x ∈ self.m_abstractNode.searchKeyExpressions.take self.m_numOfSearchkeys,
      boundaryOutcome x = true)
    (he : ∀ x ∈ self.m_abstractNode.endKeyExpressions.take self.m_numOfEndkeys,
      boundaryOutcome x = true)
    (hlt : self.m_lookupType = IndexLookupType.GT ∨ self.m_lookupType = IndexLookupType.GTE)
    (het : self.m_numOfEndkeys = 0 ∨ self.m_endType = IndexLookupType.LT
      ∨ self.m_endType = IndexLookupType.LTE) :
    ∃ count : Int, self.p_execute out = Except.ok (true, out ++ [count]) := by
  have hcount : ∀ key flag ekey eflag, ∃ count : Int,
      self.countRange key flag ekey eflag out = Except.ok (true, out ++ [count]) := by
    intro key flag ekey eflag
    obtain ⟨rs, li, h1⟩ := startRank_supported self.m_index flag self.m_lookupType key
      self.m_numOfSearchkeys hlt
    obtain ⟨re, ri, h2⟩ := endRank_supported self.m_index self.m_numOfEndkeys eflag
      self.m_endType ekey het
    exact ⟨re - rs - 1 + li + ri, by simp only [IndexCountExecutor.countRange, h1, h2]⟩
  simp only [IndexCountExecutor.p_execute]
  rcases searchKeyLoop_boundary self.m_lookupType self.m_numOfSearchkeys _ 0
      (setAllNulls self.m_index.getKeySchema) hs with h | ⟨key, flag, h⟩
  · rw [h]; exact ⟨0, rfl⟩
  · rw [h]
    by_cases hz : self.m_numOfEndkeys ≠ 0
    · simp only [hz, ne_eq, not_false_eq_true, if_true]
      rcases endKeyLoop_boundary self.m_index.getKeySchema self.m_numOfEndkeys _ 0
          (setAllNulls self.m_index.getKeySchema) he with h' | ⟨ekey, eflag, h'⟩
      · rw [h']; exact ⟨0, rfl⟩
      · rw [h']; exact hcount key flag ekey eflag
    · simp only [hz, if_false]
      exact hcount key flag [] false

/-- Witness for C11: on `{1,2,2,3,5}` the start key underflows under GTE and the end key
overflows under LT; the run succeeds with one row. -/
theorem indexCount_boundary_never_fails_witness :
    ∃ count : Int,
      IndexCountExecutor.p_execute
          { m_abstractNode := ⟨[some (Except.error ⟨false, true⟩)],
              [some (Except.error ⟨true, false⟩)], IndexLookupType.GTE, IndexLookupType.LT⟩
            m_index := rankIndex [⟨127⟩] exampleEntries
            m_numOfSearchkeys := 1, m_numOfEndkeys := 1
            m_lookupType := IndexLookupType.GTE, m_endType := IndexLookupType.LT } []
        = Except.ok (true, [] ++ [count]) :=
  indexCount_boundary_never_fails _ [] (by decide) (by decide) (Or.inr rfl) (Or.inr (Or.inl rfl))


/-! ## One output row, and initialisation -/

theorem countRange_row (self : IndexCountExecutor) (key : TableTuple) (flag : Bool)
    (ekey : TableTuple) (eflag : Bool) (out : TempTable) (ok : Bool) (out' : TempTable)
    (h : self.countRange key flag ekey eflag out = Except.ok (ok, out')) :
    (ok = true → ∃ rkStart leftIncluded rkEnd rightIncluded,
        startRank self.m_index flag self.m_lookupType key self.m_numOfSearchkeys
          = some (rkStart, leftIncluded)
        ∧ endRank self.m_index self.m_numOfEndkeys eflag self.m_endType ekey
          = some (rkEnd, rightIncluded)
        ∧ out' = out ++ [rkEnd - rkStart - 1 + leftIncluded + rightIncluded])
    ∧ (ok = false → out' = out) := by
  simp only [IndexCountExecutor.countRange] at h
  cases hs : startRank self.m_index flag self.m_lookupType key self.m_numOfSearchkeys with
  | none =>
    rw [hs] at h
    simp only [Except.ok.injEq, Prod.mk.injEq] at h
    obtain ⟨h1, h2⟩ := h
    subst h1 h2
    simp
  | some ps =>
    obtain ⟨rkStart, leftIncluded⟩ := ps
    rw [hs] at h
    cases he : endRank self.m_index self.m_numOfEndkeys eflag self.m_endType ekey with
    | none =>
      rw [he] at h
      simp only [Except.ok.injEq, Prod.mk.injEq] at h
      obtain ⟨h1, h2⟩ := h
      subst h1 h2
      simp
    | some pe =>
      obtain ⟨rkEnd, rightIncluded⟩ := pe
      rw [he] at h
      simp only [Except.ok.injEq, Prod.mk.injEq] at h
      obtain ⟨h1, h2⟩ := h
      subst h1 h2
      exact ⟨fun _ => ⟨rkStart, leftIncluded, rkEnd, rightIncluded, rfl, rfl, rfl⟩,
        fun hf => absurd hf (by decide)⟩

/-- On the list of count rows: an execution of `p_execute` that returns true has put exactly
one row, holding either the early-exit value 0 or the combined result
`rkEnd - rkStart - 1 + leftIncluded + rightIncluded` of the two rank steps; an execution that
returns false has put none. -/
theorem p_execute_rows (self : IndexCountExecutor) (out : TempTable)
    (ok : Bool) (out' : TempTable) (h : self.p_execute out = Except.ok (ok, out')) :
    (ok = true → ∃ count : Int, out' = out ++ [count] ∧
      (count = 0 ∨ ∃ key flag ekey eflag rkStart leftIncluded rkEnd rightIncluded,
        startRank self.m_index flag self.m_lookupType key self.m_numOfSearchkeys
          = some (rkStart, leftIncluded)
        ∧ endRank self.m_index self.m_numOfEndkeys eflag self.m_endType ekey
          = some (rkEnd, rightIncluded)
        ∧ count = rkEnd - rkStart - 1 + leftIncluded + rightIncluded))
    ∧ (ok = false → out' = out) := by
  have hzero : ∀ (ok : Bool) (out' : TempTable),
      (Except.ok (true, out ++ [(0 : Int)]) : Except ExecError (Bool × TempTable))
        = Except.ok (ok, out') →
      (ok = true → ∃ count : Int, out' = out ++ [count] ∧
        (count = 0 ∨ ∃ key flag ekey eflag rkStart leftIncluded rkEnd rightIncluded,
          startRank self.m_index flag self.m_lookupType key self.m_numOfSearchkeys
            = some (rkStart, leftIncluded)
          ∧ endRank self.m_index self.m_numOfEndkeys eflag self.m_endType ekey
            = some (rkEnd, rightIncluded)
          ∧ count = rkEnd - rkStart - 1 + leftIncluded + rightIncluded))
      ∧ (ok = false → out' = out) := by
    intro ok out' h
    simp only [Except.ok.injEq, Prod.mk.injEq] at h
    obtain ⟨h1, h2⟩ := h
    subst h1 h2
    exact ⟨fun _ => ⟨0, rfl, Or.inl rfl⟩, fun hf => absurd hf (by decide)⟩
  have hcount : ∀ key flag ekey eflag,
      self.countRange key flag ekey eflag out = Except.ok (ok, out') →
      (ok = true → ∃ count : Int, out' = out ++ [count] ∧
        (count = 0 ∨ ∃ key flag ekey eflag rkStart leftIncluded rkEnd rightIncluded,
          startRank self.m_index flag self.m_lookupType key self.m_numOfSearchkeys
            = some (rkStart, leftIncluded)
          ∧ endRank self.m_index self.m_numOfEndkeys eflag self.m_endType ekey
            = some (rkEnd, rightIncluded)
          ∧ count = rkEnd - rkStart - 1 + leftIncluded + rightIncluded))
      ∧ (ok = false → out' = out) := by
    intro key flag ekey eflag hc
    obtain ⟨h1, h2⟩ := countRange_row self key flag ekey eflag out ok out' hc
    refine ⟨fun ht => ?_, h2⟩
    obtain ⟨rs, li, re, ri, hs, he, ho⟩ := h1 ht
    exact ⟨_, ho, Or.inr ⟨key, flag, ekey, eflag, rs, li, re, ri, hs, he, rfl⟩⟩
  simp only [IndexCountExecutor.p_execute] at h
  split at h
  · exact hzero ok out' h
  · simp at h
  · simp at h
  · split at h
    · exact hzero ok out' h
    · simp at h
    · simp at h
    · exact hcount _ _ _ _ h

theorem setCount_setCount (table : TupleTempTable) (a b : Int) :
    setCount (setCount table a) b = setCount table b := by
  cases h : table.m_tempTuple with
  | nil => simp [setCount, setNValue, h]
  | cons x xs => simp [setCount, setNValue, h]

theorem countRangeOnTable_rows (self : IndexCountExecutor) (key : TableTuple) (flag : Bool)
    (ekey : TableTuple) (eflag : Bool) (table : TupleTempTable) :
    self.countRangeOnTable key flag ekey eflag table =
      match self.countRange key flag ekey eflag [] with
      | Except.error e => Except.error e
      | Except.ok (ok, rows) => Except.ok (ok, insertCounts table rows) := by
  simp only [IndexCountExecutor.countRangeOnTable, IndexCountExecutor.countRange]
  cases startRank self.m_index flag self.m_lookupType key self.m_numOfSearchkeys with
  | none => rfl
  | some ps =>
    cases endRank self.m_index self.m_numOfEndkeys eflag self.m_endType ekey with
    | none => rfl
    | some pe => rfl

/-- The execution on an output temp table is the execution on the list of count rows, each
row of the list being set into the scratch tuple and inserted without reading the result. -/
theorem p_executeOnTable_rows (self : IndexCountExecutor) (table : TupleTempTable) :
    self.p_executeOnTable table =
      match self.p_execute [] with
      | Except.error e => Except.error e
      | Except.ok (ok, rows) => Except.ok (ok, insertCounts (setCount table 0) rows) := by
  simp only [IndexCountExecutor.p_executeOnTable, IndexCountExecutor.p_execute]
  cases searchKeyLoop self.m_lookupType self.m_numOfSearchkeys
      (self.m_abstractNode.searchKeyExpressions.take self.m_numOfSearchkeys) 0
      (setAllNulls self.m_index.getKeySchema) with
  | earlyZero => simp [insertCounts, setCount_setCount]
  | rethrow e => rfl
  | nullExpression => rfl
  | finished m_searchKey searchKeyUnderflow =>
    simp only []
    cases (if self.m_numOfEndkeys ≠ 0 then
             endKeyLoop self.m_index.getKeySchema self.m_numOfEndkeys
               (self.m_abstractNode.endKeyExpressions.take self.m_numOfEndkeys) 0
               (setAllNulls self.m_index.getKeySchema)
           else KeyLoop.finished [] false) with
    | earlyZero => simp [insertCounts, setCount_setCount]
    | rethrow e => rfl
    | nullExpression => rfl
    | finished m_endKey endKeyOverflow =>
      simp only []
      exact countRangeOnTable_rows self _ _ _ _ _

/-- A table that rejects every insert holds the same rows after any number of inserts. -/
theorem insertCounts_rejected (rows : List Int) : ∀ (table : TupleTempTable),
    (∀ tuples t, table.m_limits.accepts tuples t = false) →
    (insertCounts table rows).m_tuples = table.m_tuples := by
  induction rows with
  | nil => intro table _; rfl
  | cons r rs ih =>
    intro table hrej
    have hstep : insertCount (setCount table r) = setCount table r := by
      simp [insertCount, TupleTempTable.insertTempTuple, setCount, hrej]
    simp only [insertCounts, List.foldl_cons, hstep]
    exact ih (setCount table r) hrej

/-- A table of one column that accepts the insert holds, after the count row was set and
inserted, one row more: the count. -/
theorem insertCounts_accepted_one (table : TupleTempTable) (count : Int)
    (hacc : ∀ tuples t, table.m_limits.accepts tuples t = true)
    (hlen : table.m_tempTuple.length = 1) :
    (insertCounts (setCount table 0) ([] ++ [count])).m_tuples
      = table.m_tuples ++ [[some count]] := by
  obtain ⟨x, hx⟩ := List.length_eq_one.mp hlen
  simp [insertCounts, insertCount, TupleTempTable.insertTempTuple, setCount, setNValue, hacc, hx]

/-- C12: `p_execute` does not read what `insertTempTuple` returns. On an output temp table
whose limits reject the row (a row ceiling of 0) the execution of the worked example returns
true and the table holds no row, where on a table without limits it appends the row 4; on
every table that rejects every insert, every execution that returns leaves the rows of the
table as they were, whatever flag it returns. On a table of one column that accepts every
insert, an execution that returns true has appended exactly one row, holding the early-exit
value 0 or the combined result `rkEnd - rkStart - 1 + leftIncluded + rightIncluded`, and one
that returns false has appended none. -/
theorem indexCount_success_without_row :
    (storedExecutor (rankIndex [⟨127⟩] exampleEntries) IndexLookupType.GTE
        IndexLookupType.INVALID [some 2] []).p_executeOnTable ⟨rowCeiling 0, [none], []⟩
      = Except.ok (true, ⟨rowCeiling 0, [some 4], []⟩)
    ∧ (storedExecutor (rankIndex [⟨127⟩] exampleEntries) IndexLookupType.GTE
        IndexLookupType.INVALID [some 2] []).p_executeOnTable ⟨noLimits, [none], []⟩
      = Except.ok (true, ⟨noLimits, [some 4], [[some 4]]⟩)
    ∧ (∀ (self : IndexCountExecutor) (table : TupleTempTable) (ok : Bool)
        (table' : TupleTempTable),
        (∀ tuples t, table.m_limits.accepts tuples t = false) →
        self.p_executeOnTable table = Except.ok (ok, table') →
        table'.m_tuples = table.m_tuples)
    ∧ (∀ (self : IndexCountExecutor) (table : TupleTempTable) (ok : Bool)
        (table' : TupleTempTable),
        (∀ tuples t, table.m_limits.accepts tuples t = true) →
        table.m_tempTuple.length = 1 →
        self.p_executeOnTable table = Except.ok (ok, table') →
        (ok = true → ∃ count : Int, table'.m_tuples = table.m_tuples ++ [[some count]] ∧
          (count = 0 ∨ ∃ key flag ekey eflag rkStart leftIncluded rkEnd rightIncluded,
            startRank self.m_index flag self.m_lookupType key self.m_numOfSearchkeys
              = some (rkStart, leftIncluded)
            ∧ endRank self.m_index self.m_numOfEndkeys eflag self.m_endType ekey
              = some (rkEnd, rightIncluded)
            ∧ count = rkEnd - rkStart - 1 + leftIncluded + rightIncluded))
        ∧ (ok = false → table'.m_tuples = table.m_tuples)) := by
  refine ⟨by rfl, by rfl, ?_, ?_⟩
  · intro self table ok table' hrej h
    rw [p_executeOnTable_rows] at h
    cases hrun : self.p_execute [] with
    | error e => rw [hrun] at h; simp at h
    | ok pair =>
      obtain ⟨ok0, rows⟩ := pair
      rw [hrun] at h
      simp only [Except.ok.injEq, Prod.mk.injEq] at h
      obtain ⟨-, h2⟩ := h
      subst h2
      exact insertCounts_rejected rows (setCount table 0) hrej
  · intro self table ok table' hacc hlen h
    rw [p_executeOnTable_rows] at h
    cases hrun : self.p_execute [] with
    | error e => rw [hrun] at h; simp at h
    | ok pair =>
      obtain ⟨ok0, rows⟩ := pair
      rw [hrun] at h
      simp only [Except.ok.injEq, Prod.mk.injEq] at h
      obtain ⟨h1, h2⟩ := h
      subst h1 h2
      obtain ⟨ht, hf⟩ := p_execute_rows self [] ok0 rows hrun
      constructor
      · intro hok
        obtain ⟨count, hrows, hcount⟩ := ht hok
        refine ⟨count, ?_, hcount⟩
        rw [hrows]
        exact insertCounts_accepted_one table count hacc hlen
      · intro hok
        rw [hf hok]
        rfl

/-- C20: `p_init` returns false exactly when some search-key expression or some end-key
expression of the plan node is NULL; when it succeeds it records the numbers of search-key
and of end-key expressions, and both may be zero. -/
theorem indexCount_init_fails_iff_null (node : IndexCountPlanNode) (index : TableIndex) :
    (IndexCountExecutor.p_init node index = none
      ↔ (none ∈ node.searchKeyExpressions ∨ none ∈ node.endKeyExpressions))
    ∧ (∀ executor, IndexCountExecutor.p_init node index = some executor →
        executor.m_numOfSearchkeys = node.searchKeyExpressions.length
        ∧ executor.m_numOfEndkeys = node.endKeyExpressions.length)
    ∧ (∃ executor, IndexCountExecutor.p_init ⟨[], [], node.lookupType, node.endType⟩ index
          = some executor
        ∧ executor.m_numOfSearchkeys = 0 ∧ executor.m_numOfEndkeys = 0) := by
  have hany : ∀ l : List (Option KeyExpression),
      ((l.take l.length).any (fun e => e.isNone) = true) ↔ none ∈ l := by
    intro l
    rw [List.take_length]
    simp only [List.any_eq_true]
    constructor
    · rintro ⟨x, hx, hn⟩
      cases x with
      | none => exact hx
      | some v => simp at hn
    · intro h
      exact ⟨none, h, rfl⟩
  refine ⟨?_, ?_, ?_⟩
  · simp only [IndexCountExecutor.p_init]
    by_cases h1 : none ∈ node.searchKeyExpressions
    · simp [(hany _).mpr h1, h1]
    · have h1' : ¬ ((node.searchKeyExpressions.take node.searchKeyExpressions.length).any
          (fun e => e.isNone) = true) := fun h => h1 ((hany _).mp h)
      by_cases h2 : none ∈ node.endKeyExpressions
      · have hlen : node.endKeyExpressions.length ≠ 0 := by
          intro h0
          rw [List.length_eq_zero] at h0
          rw [h0] at h2
          simp at h2
        simp [h1', h1, h2, (hany _).mpr h2, hlen]
      · have h2' : ¬ ((node.endKeyExpressions.take node.endKeyExpressions.length).any
            (fun e => e.isNone) = true) := fun h => h2 ((hany _).mp h)
        simp [h1', h1, h2, h2']
  · intro executor hinit
    simp only [IndexCountExecutor.p_init] at hinit
    split_ifs at hinit
    all_goals (simp only [Option.some.injEq] at hinit; subst hinit; exact ⟨rfl, rfl⟩)
  · exact ⟨{ m_abstractNode := ⟨[], [], node.lookupType, node.endType⟩, m_index := index,
             m_numOfSearchkeys := 0, m_numOfEndkeys := 0,
             m_lookupType :=
               if node.lookupType = IndexLookupType.EQ ∧ index.getKeySchema.columnCount > 0
               then IndexLookupType.GTE else node.lookupType,
             m_endType := IndexLookupType.INVALID },
      by simp [IndexCountExecutor.p_init], rfl, rfl⟩


/-! ## Filling the temp tuple column by column -/

theorem set_at_length (pre : TableTuple) (old v : NValue) (rest : TableTuple) :
    setNValue (pre ++ old :: rest) pre.length v = pre ++ v :: rest := by
  simp [setNValue, List.set_append]

theorem fillAscending_append (value : Nat → NValue) :
    ∀ (remaining : Nat) (pre rest : TableTuple), remaining ≤ rest.length →
      fillAscending value remaining pre.length (pre ++ rest)
        = pre ++ (List.range' pre.length remaining).map value ++ rest.drop remaining := by
  intro remaining
  induction remaining with
  | zero => intro pre rest _; simp [fillAscending]
  | succ r ih =>
    intro pre rest h
    cases rest with
    | nil => simp at h
    | cons old rest' =>
      have hr : r ≤ rest'.length := by simpa using h
      have := ih (pre ++ [value pre.length]) rest' hr
      simp only [List.length_append, List.length_singleton, List.append_assoc,
        List.singleton_append] at this
      simp only [fillAscending, set_at_length, this, List.range'_succ, List.map_cons,
        List.drop_succ_cons, List.append_assoc, List.cons_append]

/-- The ascending column loop over a temp tuple of `n` columns leaves the `n` values. -/
theorem fillAscending_all (value : Nat → NValue) (temp : TableTuple) :
    fillAscending value temp.length 0 temp = (List.range temp.length).map value := by
  have := fillAscending_append value temp.length [] temp (Nat.le_refl _)
  simpa [List.range_eq_range'] using this

theorem drop_set_self (v : NValue) : ∀ (temp : TableTuple) (k : Nat), k < temp.length →
    (setNValue temp k v).drop k = v :: temp.drop (k + 1) := by
  intro temp
  induction temp with
  | nil => intro k h; simp at h
  | cons a as ih =>
    intro k h
    cases k with
    | zero => simp [setNValue]
    | succ k =>
      have := ih k (by simpa using h)
      simpa [setNValue] using this

theorem fillDescending_upTo (value : Nat → NValue) :
    ∀ (ctr : Nat) (temp : TableTuple), ctr ≤ temp.length →
      fillDescending value ctr temp = (List.range ctr).map value ++ temp.drop ctr := by
  intro ctr
  induction ctr with
  | zero => intro temp _; simp [fillDescending]
  | succ k ih =>
    intro temp h
    have hk : k < temp.length := h
    have hlen : k ≤ (setNValue temp k (value k)).length := by
      simp [setNValue]; omega
    rw [fillDescending, ih _ hlen, drop_set_self _ _ _ hk, List.range_succ, List.map_append]
    simp

/-- The descending column loop over a temp tuple of `n` columns leaves the `n` values: the
order in which the columns are set does not show in the result. -/
theorem fillDescending_all (value : Nat → NValue) (temp : TableTuple) :
    fillDescending value temp.length temp = (List.range temp.length).map value := by
  rw [fillDescending_upTo value temp.length temp (Nat.le_refl _)]
  simp

theorem fill_orders_agree (value : Nat → NValue) (temp : TableTuple) :
    fillDescending value temp.length temp = fillAscending value temp.length 0 temp := by
  rw [fillDescending_all, fillAscending_all]

theorem map_range_evalColumn (tuple : TableTuple) : ∀ exprs : List AbstractExpression,
    (List.range exprs.length).map (evalColumn exprs tuple) = projectTuple exprs tuple := by
  intro exprs
  induction exprs with
  | nil => rfl
  | cons e es ih =>
    rw [List.length_cons, List.range_succ_eq_map, List.map_cons, List.map_map]
    have : (evalColumn (e :: es) tuple ∘ Nat.succ) = evalColumn es tuple := by
      funext i; simp [evalColumn]
    rw [this, ih]
    simp [evalColumn, projectTuple]

theorem map_range_getD {α : Type} (g : α → NValue) (d : α) : ∀ l : List α,
    (List.range l.length).map (fun i => g (l.getD i d)) = l.map g := by
  intro l
  induction l with
  | nil => rfl
  | cons a as ih =>
    rw [List.length_cons, List.range_succ_eq_map, List.map_cons, List.map_map]
    have : ((fun i => g ((a :: as).getD i d)) ∘ Nat.succ) = fun i => g (as.getD i d) := by
      funext i; simp
    rw [this, ih]
    simp


/-! ## The scan loop -/

theorem dueTuples_skip (predicate : Option AbstractExpression)
    (projection_node : Option ProjectionPlanNode) (limit offset : Int) (c s : Nat)
    (tuple : TableTuple) (rest : List TableTuple)
    (hp : passes predicate tuple = true) (hs : (s : Int) < offset) :
    dueTuples predicate projection_node limit offset c s (tuple :: rest)
      = dueTuples predicate projection_node limit offset c (s + 1) rest := by
  have h : offset.toNat - s = (offset.toNat - (s + 1)) + 1 := by omega
  simp only [dueTuples, List.filter_cons, hp, if_true]
  rw [h, List.drop_succ_cons]

theorem dueTuples_emit (predicate : Option AbstractExpression)
    (projection_node : Option ProjectionPlanNode) (limit offset : Int) (c s : Nat)
    (tuple : TableTuple) (rest : List TableTuple)
    (hp : passes predicate tuple = true) (hs : ¬ (s : Int) < offset)
    (hl : limit = -1 ∨ (c : Int) < limit) :
    dueTuples predicate projection_node limit offset c s (tuple :: rest)
      = outputTuple projection_node tuple
          :: dueTuples predicate projection_node limit offset (c + 1) s rest := by
  have h : offset.toNat - s = 0 := by omega
  simp only [dueTuples, List.filter_cons, hp, if_true, h, List.drop_zero]
  by_cases h1 : limit = -1
  · simp [h1]
  · have hc : (c : Int) < limit := by
      rcases hl with h | h
      · exact absurd h h1
      · exact h
    have h2 : limit.toNat - c = (limit.toNat - (c + 1)) + 1 := by omega
    simp only [h1, if_false]
    rw [h2, List.take_succ_cons, List.map_cons]

theorem dueTuples_fail (predicate : Option AbstractExpression)
    (projection_node : Option ProjectionPlanNode) (limit offset : Int) (c s : Nat)
    (tuple : TableTuple) (rest : List TableTuple)
    (hp : ¬ passes predicate tuple = true) :
    dueTuples predicate projection_node limit offset c s (tuple :: rest)
      = dueTuples predicate projection_node limit offset c s rest := by
  simp only [dueTuples, List.filter_cons, hp, if_false]
  rfl

theorem dueTuples_stop (predicate : Option AbstractExpression)
    (projection_node : Option ProjectionPlanNode) (limit offset : Int) (c s : Nat)
    (rows : List TableTuple) (hl : ¬ (limit = -1 ∨ (c : Int) < limit)) :
    dueTuples predicate projection_node limit offset c s rows = [] := by
  have h1 : limit ≠ -1 := fun h => hl (Or.inl h)
  have h2 : limit.toNat - c = 0 := by
    have : ¬ (c : Int) < limit := fun h => hl (Or.inr h)
    omega
  simp [dueTuples, h1, h2]

/-- The scan loop inserts the due tuples one after the other and returns false at the first
tuple the output table rejects, true when there is none. -/
theorem scanLoop_due (predicate : Option AbstractExpression)
    (projection_node : Option ProjectionPlanNode) (n : Nat) (limit offset : Int)
    (hproj : ∀ p, projection_node = some p → p.outputColumnExpressions.length = n) :
    ∀ (rows : List TableTuple) (c s : Nat) (table : TupleTempTable),
      table.columnCount = n →
      ∃ table', scanLoop predicate projection_node n limit offset rows c s (some table)
          = Except.ok ((insertUntilRejected table.m_limits table.m_tuples
              (dueTuples predicate projection_node limit offset c s rows)).1, some table')
        ∧ table'.m_tuples = (insertUntilRejected table.m_limits table.m_tuples
              (dueTuples predicate projection_node limit offset c s rows)).2
        ∧ table'.m_limits = table.m_limits
        ∧ table'.columnCount = n := by
  intro rows
  induction rows with
  | nil =>
    intro c s table hn
    refine ⟨table, ?_, ?_, rfl, hn⟩
    · simp [scanLoop, dueTuples, insertUntilRejected]
    · simp [dueTuples, insertUntilRejected]
  | cons tuple rest ih =>
    intro c s table hn
    by_cases hl : limit = -1 ∨ (c : Int) < limit
    · by_cases hp : passes predicate tuple = true
      · by_cases hs : (s : Int) < offset
        · obtain ⟨table', h1, h2, h3, h4⟩ := ih c (s + 1) table hn
          refine ⟨table', ?_, ?_, h3, h4⟩
          · simp only [scanLoop, hl, hp, hs, if_true]
            rw [dueTuples_skip _ _ _ _ _ _ _ _ hp hs]
            simpa using h1
          · rw [dueTuples_skip _ _ _ _ _ _ _ _ hp hs]; exact h2
        · rw [dueTuples_emit _ _ _ _ _ _ _ _ hp hs hl]
          simp only [scanLoop, hl, hp, hs, if_true, if_false, insertUntilRejected]
          cases hpn : projection_node with
          | none =>
            simp only [outputTuple, TupleTempTable.insertTempTuple]
            by_cases hacc : table.m_limits.accepts table.m_tuples tuple = true
            · simp only [hacc, if_true]
              obtain ⟨table', h1, h2, h3, h4⟩ := ih (c + 1) s
                { table with m_tuples := table.m_tuples ++ [tuple] } hn
              rw [hpn] at h1 h2
              exact ⟨table', by simpa using h1, h2, h3, h4⟩
            · simp only [hacc, if_false]
              exact ⟨table, rfl, rfl, rfl, hn⟩
          | some projection =>
            have hlen : projection.outputColumnExpressions.length = n := hproj projection hpn
            have hfill : fillAscending (evalColumn projection.outputColumnExpressions tuple) n 0
                table.m_tempTuple = projectTuple projection.outputColumnExpressions tuple := by
              have hn' : table.m_tempTuple.length = n := hn
              rw [← hn', fillAscending_all, hn', ← hlen, map_range_evalColumn]
            simp only [outputTuple, TupleTempTable.insertTempTuple, hfill]
            by_cases hacc : table.m_limits.accepts table.m_tuples
                (projectTuple projection.outputColumnExpressions tuple) = true
            · simp only [hacc, if_true]
              have hn2 : TupleTempTable.columnCount
                  { m_limits := table.m_limits,
                    m_tempTuple := projectTuple projection.outputColumnExpressions tuple,
                    m_tuples := table.m_tuples
                      ++ [projectTuple projection.outputColumnExpressions tuple] } = n := by
                simp [TupleTempTable.columnCount, projectTuple, hlen]
              obtain ⟨table', h1, h2, h3, h4⟩ := ih (c + 1) s _ hn2
              rw [hpn] at h1 h2
              exact ⟨table', by simpa using h1, h2, h3, h4⟩
            · simp only [hacc, if_false]
              refine ⟨_, rfl, rfl, rfl, ?_⟩
              simp [TupleTempTable.columnCount, projectTuple, hlen]
      · obtain ⟨table', h1, h2, h3, h4⟩ := ih c s table hn
        refine ⟨table', ?_, ?_, h3, h4⟩
        · simp only [scanLoop, hl, hp, if_true, if_false]
          rw [dueTuples_fail _ _ _ _ _ _ _ _ hp]
          exact h1
        · rw [dueTuples_fail _ _ _ _ _ _ _ _ hp]; exact h2
    · refine ⟨table, ?_, ?_, rfl, hn⟩
      · simp only [scanLoop, hl, if_false, dueTuples_stop _ _ _ _ _ _ _ hl, insertUntilRejected]
      · simp only [dueTuples_stop _ _ _ _ _ _ _ hl, insertUntilRejected]


theorem insertUntilRejected_all (limits : TempTableLimits)
    (hacc : ∀ tuples t, limits.accepts tuples t = true) :
    ∀ (due tuples : List TableTuple),
      insertUntilRejected limits tuples due = (true, tuples ++ due) := by
  intro due
  induction due with
  | nil => intro tuples; simp [insertUntilRejected]
  | cons t rest ih =>
    intro tuples
    simp [insertUntilRejected, hacc, ih]

theorem insertUntilRejected_true (limits : TempTableLimits) :
    ∀ (due tuples : List TableTuple),
      (insertUntilRejected limits tuples due).1 = true →
      (insertUntilRejected limits tuples due).2 = tuples ++ due := by
  intro due
  induction due with
  | nil => intro tuples _; simp [insertUntilRejected]
  | cons t rest ih =>
    intro tuples h
    simp only [insertUntilRejected] at h ⊢
    split_ifs at h ⊢ with hacc
    simpa using ih _ h

theorem insertUntilRejected_false (limits : TempTableLimits) :
    ∀ (due tuples : List TableTuple),
      (insertUntilRejected limits tuples due).1 = false →
      ∃ accepted rejected rest, due = accepted ++ rejected :: rest
        ∧ (insertUntilRejected limits tuples due).2 = tuples ++ accepted
        ∧ limits.accepts (tuples ++ accepted) rejected = false := by
  intro due
  induction due with
  | nil => intro tuples h; simp [insertUntilRejected] at h
  | cons t rest ih =>
    intro tuples h
    simp only [insertUntilRejected] at h ⊢
    split_ifs at h ⊢ with hacc
    · obtain ⟨accepted, rejected, rest', h1, h2, h3⟩ := ih _ h
      refine ⟨t :: accepted, rejected, rest', by simp [h1], ?_, ?_⟩
      · simpa using h2
      · simpa using h3
    · exact ⟨[], t, rest, rfl, by simp, by simpa using hacc⟩

/-- Once the scan loop has returned false over some tuples, tuples that follow them in the
table change nothing: they are neither evaluated nor inserted. -/
theorem scanLoop_stops (predicate : Option AbstractExpression)
    (projection_node : Option ProjectionPlanNode) (n : Nat) (limit offset : Int) :
    ∀ (before : List TableTuple) (c s : Int) (table result : Option TupleTempTable),
      scanLoop predicate projection_node n limit offset before c s table
        = Except.ok (false, result) →
      ∀ later, scanLoop predicate projection_node n limit offset (before ++ later) c s table
        = Except.ok (false, result) := by
  intro before
  induction before with
  | nil => intro c s table result h; simp [scanLoop] at h
  | cons tuple rest ih =>
    intro c s table result h later
    rw [List.cons_append]
    simp only [scanLoop] at h ⊢
    split_ifs at h ⊢ with h1 h2 h3
    · exact ih _ _ _ _ h later
    · split at h
      · simp at h
      · split at h
        · split at h
          · exact h
          · exact ih _ _ _ _ h later
        · split at h
          · exact h
          · exact ih _ _ _ _ h later
    · exact ih _ _ _ _ h later
    · simp at h


/-! ## The sequential scan -/

/-- With a temp table as output and a predicate, a projection or a limit in the plan, the
scan inserts its due tuples one after the other, returning false at the first rejection. -/
theorem seqScan_p_execute_due (self : SeqScanExecutor) (table : TupleTempTable)
    (hout : self.m_outputTable = OutputTableRef.tempTable table)
    (hguard : self.m_abstractNode.predicate.isSome ∨ self.m_abstractNode.inlineProjection.isSome
      ∨ self.m_abstractNode.inlineLimit.isSome)
    (hproj : ∀ p, self.m_abstractNode.inlineProjection = some p →
      p.outputColumnExpressions.length = table.columnCount) :
    ∃ table', self.p_execute
        = Except.ok ((insertUntilRejected table.m_limits table.m_tuples self.due).1,
            { self with m_outputTable := OutputTableRef.tempTable table' })
      ∧ table'.m_tuples = (insertUntilRejected table.m_limits table.m_tuples self.due).2
      ∧ table'.m_limits = table.m_limits
      ∧ table'.columnCount = table.columnCount := by
  obtain ⟨table', h1, h2, h3, h4⟩ := scanLoop_due self.m_abstractNode.predicate
    self.m_abstractNode.inlineProjection table.columnCount
    (limitAndOffset self.m_abstractNode.inlineLimit).1
    (limitAndOffset self.m_abstractNode.inlineLimit).2 hproj self.m_targetTable 0 0 table rfl
  refine ⟨table', ?_, h2, h3, h4⟩
  simp only [Nat.cast_zero] at h1
  simp only [SeqScanExecutor.p_execute, hguard, if_true, hout, h1, SeqScanExecutor.due]

theorem due_eq_scanReference (self : SeqScanExecutor)
    (hlim : ∀ l, self.m_abstractNode.inlineLimit = some l → 0 ≤ l.limit ∧ 0 ≤ l.offset) :
    self.due = scanReference self.m_targetTable self.m_abstractNode.predicate
      self.m_abstractNode.inlineLimit self.m_abstractNode.inlineProjection := by
  unfold SeqScanExecutor.due dueTuples scanReference limitAndOffset
  cases hl : self.m_abstractNode.inlineLimit with
  | none => simp
  | some l =>
    obtain ⟨h1, h2⟩ := hlim l hl
    have hne : l.limit ≠ -1 := by omega
    simp [hne]

/-- C13: with a temp table as output, a predicate, an inline projection or an inline limit
in the plan, limit and offset not negative, the output schema mirroring the projection and
every insert accepted, `p_execute` returns true and appends to the output, in scan order,
exactly the reference rows: the tuples that pass the predicate (all without one), less the
first `offset` of them, at most `limit` of the rest (all without a limit node), each mapped
through the projection column by column (or copied without one). With limit 2, offset 1
and five qualifying tuples these are the second and the third qualifier. -/
theorem seqScan_emits_reference (self : SeqScanExecutor) (table : TupleTempTable)
    (hout : self.m_outputTable = OutputTableRef.tempTable table)
    (hguard : self.m_abstractNode.predicate.isSome ∨ self.m_abstractNode.inlineProjection.isSome
      ∨ self.m_abstractNode.inlineLimit.isSome)
    (hlim : ∀ l, self.m_abstractNode.inlineLimit = some l → 0 ≤ l.limit ∧ 0 ≤ l.offset)
    (hproj : ∀ p, self.m_abstractNode.inlineProjection = some p →
      p.outputColumnExpressions.length = table.columnCount)
    (haccept : ∀ tuples t, table.m_limits.accepts tuples t = true) :
    (∃ table', self.p_execute
        = Except.ok (true, { self with m_outputTable := OutputTableRef.tempTable table' })
      ∧ table'.m_tuples = table.m_tuples ++ scanReference self.m_targetTable
          self.m_abstractNode.predicate self.m_abstractNode.inlineLimit
          self.m_abstractNode.inlineProjection)
    ∧ (∀ q1 q2 q3 q4 q5 : TableTuple,
        self.m_targetTable.filter (passes self.m_abstractNode.predicate) = [q1, q2, q3, q4, q5] →
        self.m_abstractNode.inlineLimit = some ⟨2, 1⟩ →
        scanReference self.m_targetTable self.m_abstractNode.predicate
          self.m_abstractNode.inlineLimit self.m_abstractNode.inlineProjection
          = [outputTuple self.m_abstractNode.inlineProjection q2,
             outputTuple self.m_abstractNode.inlineProjection q3]) := by
  constructor
  · obtain ⟨table', h1, h2, _, _⟩ := seqScan_p_execute_due self table hout hguard hproj
    rw [insertUntilRejected_all _ haccept] at h1 h2
    rw [due_eq_scanReference self hlim] at h2
    exact ⟨table', h1, h2⟩
  · intro q1 q2 q3 q4 q5 hq hl
    simp [scanReference, hq, hl]

/-- C14: when the scan plan has no predicate and no inline plan nodes, `p_setOutputTable`
makes the output table the target table itself, and `p_execute` then returns true and
leaves the executor, its target table and its output reference as they were. -/
theorem seqScan_aliases_target (self : SeqScanExecutor) (limits : TempTableLimits)
    (hpred : self.m_abstractNode.predicate = none)
    (hinline : self.m_abstractNode.inlinePlanNodesSize = 0) :
    (self.p_setOutputTable limits).m_outputTable = OutputTableRef.targetTable
    ∧ (self.p_setOutputTable limits).m_targetTable = self.m_targetTable
    ∧ (self.p_setOutputTable limits).p_execute = Except.ok (true, self.p_setOutputTable limits) := by
  have hp : self.m_abstractNode.inlineProjection = none := by
    cases h : self.m_abstractNode.inlineProjection with
    | none => rfl
    | some p => simp [SeqScanPlanNode.inlinePlanNodesSize, h] at hinline
  have hl : self.m_abstractNode.inlineLimit = none := by
    cases h : self.m_abstractNode.inlineLimit with
    | none => rfl
    | some l => simp [SeqScanPlanNode.inlinePlanNodesSize, h] at hinline
  have hset : self.p_setOutputTable limits
      = { self with m_outputTable := OutputTableRef.targetTable } := by
    simp [SeqScanExecutor.p_setOutputTable, hpred, hinline]
  rw [hset]
  refine ⟨rfl, rfl, ?_⟩
  simp [SeqScanExecutor.p_execute, hpred, hp, hl]

/-- C15: with a temp table as output and the output schema mirroring the projection, as
soon as the output table rejects an insert (with or without inline projection)
`p_execute` returns false: the output then holds exactly the tuples accepted before the
rejected one, and tuples that follow in the target table change nothing, being neither
evaluated nor inserted; when no insert is rejected it returns true with all due tuples
appended. -/
theorem seqScan_stops_at_rejected_insert (self : SeqScanExecutor) (table : TupleTempTable)
    (hout : self.m_outputTable = OutputTableRef.tempTable table)
    (hguard : self.m_abstractNode.predicate.isSome ∨ self.m_abstractNode.inlineProjection.isSome
      ∨ self.m_abstractNode.inlineLimit.isSome)
    (hproj : ∀ p, self.m_abstractNode.inlineProjection = some p →
      p.outputColumnExpressions.length = table.columnCount) :
    ∃ ok table', self.p_execute
        = Except.ok (ok, { self with m_outputTable := OutputTableRef.tempTable table' })
      ∧ (ok = false → ∃ accepted rejected rest, self.due = accepted ++ rejected :: rest
          ∧ table'.m_tuples = table.m_tuples ++ accepted
          ∧ table.m_limits.accepts (table.m_tuples ++ accepted) rejected = false)
      ∧ (ok = false → ∀ later : List TableTuple,
          SeqScanExecutor.p_execute { self with m_targetTable := self.m_targetTable ++ later }
            = Except.ok (false, { self with m_targetTable := self.m_targetTable ++ later,
                                            m_outputTable := OutputTableRef.tempTable table' }))
      ∧ (ok = true → table'.m_tuples = table.m_tuples ++ self.due)
      ∧ ((∀ accepted t rest, self.due = accepted ++ t :: rest →
            table.m_limits.accepts (table.m_tuples ++ accepted) t = true) → ok = true) := by
  obtain ⟨table', h1, h2, _, _⟩ := seqScan_p_execute_due self table hout hguard hproj
  refine ⟨_, table', h1, ?_, ?_, ?_, ?_⟩
  · intro hf
    obtain ⟨accepted, rejected, rest, e1, e2, e3⟩ :=
      insertUntilRejected_false _ _ _ hf
    exact ⟨accepted, rejected, rest, e1, by rw [h2, e2], e3⟩
  · intro hf later
    rw [hf] at h1
    simp only [SeqScanExecutor.p_execute, hguard, if_true, hout] at h1 ⊢
    cases hloop : scanLoop self.m_abstractNode.predicate self.m_abstractNode.inlineProjection
        table.columnCount (limitAndOffset self.m_abstractNode.inlineLimit).1
        (limitAndOffset self.m_abstractNode.inlineLimit).2 self.m_targetTable 0 0
        (some table) with
    | error e => rw [hloop] at h1; simp at h1
    | ok res =>
      obtain ⟨ok, result⟩ := res
      rw [hloop] at h1
      cases result with
      | none =>
        simp only [Except.ok.injEq, Prod.mk.injEq] at h1
        obtain ⟨hok, hself⟩ := h1
        subst hok
        have ht : table = table' := by
          have := congrArg SeqScanExecutor.m_outputTable hself
          rw [hout] at this
          simpa using this
        subst ht
        rw [scanLoop_stops _ _ _ _ _ _ _ _ _ _ hloop later]
      | some t =>
        simp only [Except.ok.injEq, Prod.mk.injEq] at h1
        obtain ⟨hok, hself⟩ := h1
        subst hok
        have ht : t = table' := by
          have := congrArg SeqScanExecutor.m_outputTable hself
          simpa using this
        subst ht
        rw [scanLoop_stops _ _ _ _ _ _ _ _ _ _ hloop later]
  · intro ht
    rw [h2]
    exact insertUntilRejected_true _ _ _ ht
  · intro hall
    cases hflag : (insertUntilRejected table.m_limits table.m_tuples self.due).1 with
    | true => rfl
    | false =>
      obtain ⟨accepted, rejected, rest, e1, _, e3⟩ := insertUntilRejected_false _ _ _ hflag
      rw [hall accepted rejected rest e1] at e3
      exact absurd e3 (by decide)


/-- Witness for C13: the sample table has five qualifying tuples; with limit 2 and offset 1
and no projection the scan emits the second and the third of them. -/
theorem seqScan_emits_reference_witness :
    (∃ table', (SeqScanExecutor.p_setOutputTable (sampleScan none (some ⟨2, 1⟩) 2) noLimits).p_execute
        = Except.ok (true,
            { SeqScanExecutor.p_setOutputTable (sampleScan none (some ⟨2, 1⟩) 2) noLimits with
              m_outputTable := OutputTableRef.tempTable table' })
      ∧ table'.m_tuples = [] ++ scanReference sampleRows (some (columnPositive 0))
          (some ⟨2, 1⟩) none)
    ∧ scanReference sampleRows (some (columnPositive 0)) (some ⟨2, 1⟩) none
        = [[some 2, some 20], [some 3, some 30]] :=
  ⟨(seqScan_emits_reference
      (SeqScanExecutor.p_setOutputTable (sampleScan none (some ⟨2, 1⟩) 2) noLimits)
      ⟨noLimits, [none, none], []⟩ rfl (Or.inl rfl)
      (fun l h => by cases h; exact ⟨by decide, by decide⟩)
      (fun p h => by cases h) (fun _ _ => rfl)).1,
   by decide⟩

/-- Witness for C14: a scan of the sample table with no predicate and no inline node. -/
theorem seqScan_aliases_target_witness :
    (SeqScanExecutor.p_setOutputTable
        ⟨⟨none, none, none, 0, 2⟩, sampleRows, OutputTableRef.tempTable ⟨noLimits, [], []⟩⟩
        noLimits).m_outputTable = OutputTableRef.targetTable
    ∧ (SeqScanExecutor.p_setOutputTable
        ⟨⟨none, none, none, 0, 2⟩, sampleRows, OutputTableRef.tempTable ⟨noLimits, [], []⟩⟩
        noLimits).m_targetTable = sampleRows
    ∧ (SeqScanExecutor.p_setOutputTable
        ⟨⟨none, none, none, 0, 2⟩, sampleRows, OutputTableRef.tempTable ⟨noLimits, [], []⟩⟩
        noLimits).p_execute
      = Except.ok (true, SeqScanExecutor.p_setOutputTable
          ⟨⟨none, none, none, 0, 2⟩, sampleRows, OutputTableRef.tempTable ⟨noLimits, [], []⟩⟩
          noLimits) :=
  seqScan_aliases_target
    ⟨⟨none, none, none, 0, 2⟩, sampleRows, OutputTableRef.tempTable ⟨noLimits, [], []⟩⟩
    noLimits rfl rfl

/-- Witness for C15: the sample scan with the projection on the second column into an
output table with a ceiling of two tuples; the third insert is rejected. -/
theorem seqScan_stops_at_rejected_insert_witness :
    (∃ ok table',
      (SeqScanExecutor.p_setOutputTable
          (sampleScan (some ⟨true, [], [], [tupleValue 1]⟩) none 1) (rowCeiling 2)).p_execute
        = Except.ok (ok,
            { SeqScanExecutor.p_setOutputTable
                (sampleScan (some ⟨true, [], [], [tupleValue 1]⟩) none 1) (rowCeiling 2) with
              m_outputTable := OutputTableRef.tempTable table' })
      ∧ (ok = false → ∃ accepted rejected rest,
          (SeqScanExecutor.p_setOutputTable
            (sampleScan (some ⟨true, [], [], [tupleValue 1]⟩) none 1) (rowCeiling 2)).due
            = accepted ++ rejected :: rest
          ∧ table'.m_tuples = [] ++ accepted
          ∧ (rowCeiling 2).accepts ([] ++ accepted) rejected = false)
      ∧ (ok = false → ∀ later : List TableTuple,
          SeqScanExecutor.p_execute
            { SeqScanExecutor.p_setOutputTable
                (sampleScan (some ⟨true, [], [], [tupleValue 1]⟩) none 1) (rowCeiling 2) with
              m_targetTable := sampleRows ++ later }
            = Except.ok (false,
              { SeqScanExecutor.p_setOutputTable
                  (sampleScan (some ⟨true, [], [], [tupleValue 1]⟩) none 1) (rowCeiling 2) with
                m_targetTable := sampleRows ++ later,
                m_outputTable := OutputTableRef.tempTable table' }))
      ∧ (ok = true → table'.m_tuples = [] ++
          (SeqScanExecutor.p_setOutputTable
            (sampleScan (some ⟨true, [], [], [tupleValue 1]⟩) none 1) (rowCeiling 2)).due)
      ∧ ((∀ accepted t rest,
            (SeqScanExecutor.p_setOutputTable
              (sampleScan (some ⟨true, [], [], [tupleValue 1]⟩) none 1) (rowCeiling 2)).due
              = accepted ++ t :: rest →
            (rowCeiling 2).accepts ([] ++ accepted) t = true) → ok = true))
    ∧ (SeqScanExecutor.p_setOutputTable
          (sampleScan (some ⟨true, [], [], [tupleValue 1]⟩) none 1) (rowCeiling 2)).p_execute
        = Except.ok (false,
            { SeqScanExecutor.p_setOutputTable
                (sampleScan (some ⟨true, [], [], [tupleValue 1]⟩) none 1) (rowCeiling 2) with
              m_outputTable := OutputTableRef.tempTable
                ⟨rowCeiling 2, [some 30], [[some 10], [some 20]]⟩ }) :=
  ⟨seqScan_stops_at_rejected_insert
      (SeqScanExecutor.p_setOutputTable
        (sampleScan (some ⟨true, [], [], [tupleValue 1]⟩) none 1) (rowCeiling 2))
      ⟨rowCeiling 2, [none], []⟩ rfl (Or.inl rfl)
      (fun p h => by cases h; rfl),
   by rfl⟩


/-! ## The projection -/

/-- The tuple loop of the projection on a table that accepts every insert: one output tuple
per input tuple, holding the values of the columns. -/
theorem projectionLoop_accepting (value : TableTuple → Nat → NValue) (count : Nat) :
    ∀ (rows : List TableTuple) (table : TupleTempTable),
      (∀ tuples t, table.m_limits.accepts tuples t = true) →
      table.m_tempTuple.length = count →
      (projectionLoop value count rows table).m_tuples
        = table.m_tuples ++ rows.map (fun tuple => (List.range count).map (value tuple)) := by
  intro rows
  induction rows with
  | nil => intro table _ _; simp [projectionLoop]
  | cons tuple rest ih =>
    intro table hacc hlen
    have hfill : fillDescending (value tuple) count table.m_tempTuple
        = (List.range count).map (value tuple) := by
      rw [← hlen, fillDescending_all]
    simp only [projectionLoop, hfill, TupleTempTable.insertTempTuple, hacc, if_true]
    rw [ih ⟨table.m_limits, (List.range count).map (value tuple),
      table.m_tuples ++ [(List.range count).map (value tuple)]⟩ hacc (by simp)]
    simp

/-- The tuple loop of the projection on a table that accepts every insert appends one
tuple per input tuple, whatever the columns hold. -/
theorem projectionLoop_length (value : TableTuple → Nat → NValue) (count : Nat) :
    ∀ (rows : List TableTuple) (table : TupleTempTable),
      (∀ tuples t, table.m_limits.accepts tuples t = true) →
      (projectionLoop value count rows table).m_tuples.length
        = table.m_tuples.length + rows.length := by
  intro rows
  induction rows with
  | nil => intro table _; simp [projectionLoop]
  | cons tuple rest ih =>
    intro table hacc
    simp only [projectionLoop, TupleTempTable.insertTempTuple, hacc, if_true]
    rw [ih ⟨table.m_limits, fillDescending (value tuple) count table.m_tempTuple,
      table.m_tuples ++ [fillDescending (value tuple) count table.m_tempTuple]⟩ hacc]
    simp
    omega

/-- Column-copy mode: chosen whenever the list of source columns is not empty. -/
theorem projection_mode_columns (self : ProjectionExecutor)
    (hcols : self.m_abstractNode.outputIfAllTupleValues ≠ [])
    (hlen : self.m_outputTable.m_tempTuple.length
      = self.m_abstractNode.outputIfAllTupleValues.length)
    (haccept : ∀ tuples t, self.m_outputTable.m_limits.accepts tuples t = true) :
    self.p_execute.2.m_outputTable.m_tuples
      = self.m_outputTable.m_tuples ++ self.m_inputTable.map
          (fun tuple => self.m_abstractNode.outputIfAllTupleValues.map (getNValue tuple)) := by
  have hne : self.m_abstractNode.outputIfAllTupleValues.length ≠ 0 := by
    simpa using hcols
  simp only [ProjectionExecutor.p_execute, hne, ne_eq, not_false_eq_true, if_true]
  rw [projectionLoop_accepting _ _ _ _ haccept hlen]
  congr 1
  apply List.map_congr_left
  intro tuple _
  exact map_range_getD (getNValue tuple) 0 _

/-- Parameter mode: chosen when there are no source columns and the list of parameter
values is not empty. -/
theorem projection_mode_params (self : ProjectionExecutor)
    (hcols : self.m_abstractNode.outputIfAllTupleValues = [])
    (hparams : self.m_abstractNode.outputIfAllParameterValues ≠ [])
    (hlen : self.m_outputTable.m_tempTuple.length
      = self.m_abstractNode.outputIfAllParameterValues.length)
    (haccept : ∀ tuples t, self.m_outputTable.m_limits.accepts tuples t = true) :
    self.p_execute.2.m_outputTable.m_tuples
      = self.m_outputTable.m_tuples ++ self.m_inputTable.map
          (fun _ => self.m_abstractNode.outputIfAllParameterValues) := by
  have hne : self.m_abstractNode.outputIfAllParameterValues.length ≠ 0 := by
    simpa using hparams
  simp only [ProjectionExecutor.p_execute, hcols, List.length_nil, ne_eq, not_true_eq_false,
    if_false, if_true, hne, not_false_eq_true]
  rw [projectionLoop_accepting _ _ _ _ haccept hlen]
  congr 1
  apply List.map_congr_left
  intro tuple _
  have := map_range_getD (fun v : NValue => v) none
    self.m_abstractNode.outputIfAllParameterValues
  simpa using this

/-- Expression mode: chosen when there are neither source columns nor parameter values. -/
theorem projection_mode_exprs (self : ProjectionExecutor)
    (hcols : self.m_abstractNode.outputIfAllTupleValues = [])
    (hparams : self.m_abstractNode.outputIfAllParameterValues = [])
    (hlen : self.m_outputTable.m_tempTuple.length
      = self.m_abstractNode.outputColumnExpressions.length)
    (haccept : ∀ tuples t, self.m_outputTable.m_limits.accepts tuples t = true) :
    self.p_execute.2.m_outputTable.m_tuples
      = self.m_outputTable.m_tuples ++ self.m_inputTable.map
          (projectTuple self.m_abstractNode.outputColumnExpressions) := by
  simp only [ProjectionExecutor.p_execute, hcols, hparams, List.length_nil, ne_eq,
    not_true_eq_false, if_false, if_true]
  rw [projectionLoop_accepting _ _ _ _ haccept hlen]
  congr 1
  apply List.map_congr_left
  intro tuple _
  exact map_range_evalColumn tuple _


/-- C16: in column-copy mode (a list `cols` of source columns that is not empty), on an
output table of as many columns that accepts every insert, `p_execute` returns true and
produces, for every input tuple `r` in input order, the output tuple whose column `i` is
`r[cols[i]]`; for a tuple `(a, b, c)` and `cols = [2,0]` that is `(c, a)`. Filling the
columns in descending order gives the tuple that ascending order gives. -/
theorem projection_column_copy (self : ProjectionExecutor)
    (hcols : self.m_abstractNode.outputIfAllTupleValues ≠ [])
    (hlen : self.m_outputTable.m_tempTuple.length
      = self.m_abstractNode.outputIfAllTupleValues.length)
    (haccept : ∀ tuples t, self.m_outputTable.m_limits.accepts tuples t = true) :
    self.p_execute.1 = true
    ∧ self.p_execute.2.m_outputTable.m_tuples
      = self.m_outputTable.m_tuples ++ self.m_inputTable.map
          (fun tuple => self.m_abstractNode.outputIfAllTupleValues.map (getNValue tuple))
    ∧ (self.m_abstractNode.outputIfAllTupleValues = [2, 0] → ∀ a b c : NValue,
        self.m_abstractNode.outputIfAllTupleValues.map (getNValue [a, b, c]) = [c, a])
    ∧ (∀ tuple : TableTuple,
        fillDescending
            (fun ctr => getNValue tuple (self.m_abstractNode.outputIfAllTupleValues.getD ctr 0))
            self.m_abstractNode.outputIfAllTupleValues.length self.m_outputTable.m_tempTuple
          = fillAscending
            (fun ctr => getNValue tuple (self.m_abstractNode.outputIfAllTupleValues.getD ctr 0))
            self.m_abstractNode.outputIfAllTupleValues.length 0 self.m_outputTable.m_tempTuple) := by
  refine ⟨rfl, projection_mode_columns self hcols hlen haccept, ?_, ?_⟩
  · intro h a b c
    rw [h]
    rfl
  · intro tuple
    rw [← hlen]
    exact fill_orders_agree _ _

/-- Witness for C16: the columns `[2,0]` of the sample input of three columns. -/
theorem projection_column_copy_witness :
    (sampleProjection ⟨false, [2, 0], [], []⟩ noLimits 2).p_execute.2.m_outputTable.m_tuples
      = [] ++ sampleInput.map (fun tuple => [2, 0].map (getNValue tuple))
    ∧ sampleInput.map (fun tuple => [2, 0].map (getNValue tuple))
      = [[some 3, some 1], [some 6, some 4], [some 9, some 7]] :=
  ⟨(projection_column_copy (sampleProjection ⟨false, [2, 0], [], []⟩ noLimits 2)
      (by decide) (by decide) (fun _ _ => rfl)).2.1, by decide⟩

/-- C17: on an output table that accepts every insert, `p_execute` appends in every mode
exactly one output tuple per input tuple; in parameter mode (no source columns, a list of
parameter values that is not empty, an output table of as many columns) every output
tuple is the list of the parameter values, whatever the input tuple holds. -/
theorem projection_one_row_per_input (self : ProjectionExecutor)
    (haccept : ∀ tuples t, self.m_outputTable.m_limits.accepts tuples t = true) :
    self.p_execute.2.m_outputTable.m_tuples.length
      = self.m_outputTable.m_tuples.length + self.m_inputTable.length
    ∧ (self.m_abstractNode.outputIfAllTupleValues = [] →
        self.m_abstractNode.outputIfAllParameterValues ≠ [] →
        self.m_outputTable.m_tempTuple.length
          = self.m_abstractNode.outputIfAllParameterValues.length →
        self.p_execute.2.m_outputTable.m_tuples
          = self.m_outputTable.m_tuples
            ++ List.replicate self.m_inputTable.length
                self.m_abstractNode.outputIfAllParameterValues) := by
  constructor
  · simp only [ProjectionExecutor.p_execute]
    split_ifs <;> exact projectionLoop_length _ _ _ _ haccept
  · intro hcols hparams hlen
    rw [projection_mode_params self hcols hparams hlen haccept]
    simp

/-- Witness for C17: the parameters `(7, 8)` over the three tuples of the sample input. -/
theorem projection_one_row_per_input_witness :
    (sampleProjection ⟨false, [], [some 7, some 8], [tupleValue 0]⟩ noLimits 2).p_execute.2.m_outputTable.m_tuples.length = 0 + 3
    ∧ (sampleProjection ⟨false, [], [some 7, some 8], [tupleValue 0]⟩ noLimits 2).p_execute.2.m_outputTable.m_tuples = [] ++ List.replicate 3 [some 7, some 8] :=
  ⟨(projection_one_row_per_input
      (sampleProjection ⟨false, [], [some 7, some 8], [tupleValue 0]⟩ noLimits 2)
      (fun _ _ => rfl)).1,
   (projection_one_row_per_input
      (sampleProjection ⟨false, [], [some 7, some 8], [tupleValue 0]⟩ noLimits 2)
      (fun _ _ => rfl)).2 rfl (by decide) (by decide)⟩

/-- C18: `p_execute` works in one mode for the whole call, by a fixed priority on the plan:
column-copy mode when the list of source columns is not empty, whatever the other lists
hold; otherwise parameter mode when the list of parameter values is not empty; otherwise
expression mode, where output column `i` is expression `i` evaluated on the input tuple.
Stated on an output table that accepts every insert and has the columns of the mode. -/
theorem projection_mode_priority (self : ProjectionExecutor)
    (haccept : ∀ tuples t, self.m_outputTable.m_limits.accepts tuples t = true) :
    (self.m_abstractNode.outputIfAllTupleValues ≠ [] →
      self.m_outputTable.m_tempTuple.length
        = self.m_abstractNode.outputIfAllTupleValues.length →
      self.p_execute.2.m_outputTable.m_tuples
        = self.m_outputTable.m_tuples ++ self.m_inputTable.map
            (fun tuple => self.m_abstractNode.outputIfAllTupleValues.map (getNValue tuple)))
    ∧ (self.m_abstractNode.outputIfAllTupleValues = [] →
      self.m_abstractNode.outputIfAllParameterValues ≠ [] →
      self.m_outputTable.m_tempTuple.length
        = self.m_abstractNode.outputIfAllParameterValues.length →
      self.p_execute.2.m_outputTable.m_tuples
        = self.m_outputTable.m_tuples ++ self.m_inputTable.map
            (fun _ => self.m_abstractNode.outputIfAllParameterValues))
    ∧ (self.m_abstractNode.outputIfAllTupleValues = [] →
      self.m_abstractNode.outputIfAllParameterValues = [] →
      self.m_outputTable.m_tempTuple.length
        = self.m_abstractNode.outputColumnExpressions.length →
      self.p_execute.2.m_outputTable.m_tuples
        = self.m_outputTable.m_tuples ++ self.m_inputTable.map
            (fun tuple => self.m_abstractNode.outputColumnExpressions.map
              (fun e => e.eval (some tuple) none))) :=
  ⟨fun h1 h2 => projection_mode_columns self h1 h2 haccept,
   fun h1 h2 h3 => projection_mode_params self h1 h2 h3 haccept,
   fun h1 h2 h3 => projection_mode_exprs self h1 h2 h3 haccept⟩

/-- Witness for C18: with source columns, parameter values and expressions all present the
source columns decide; without source columns the parameter values decide; with neither
the expressions decide. -/
theorem projection_mode_priority_witness :
    (sampleProjection ⟨false, [1], [some 7], [tupleValue 2]⟩ noLimits 1).p_execute.2.m_outputTable.m_tuples = [] ++ sampleInput.map (fun tuple => [1].map (getNValue tuple))
    ∧ (sampleProjection ⟨false, [], [some 7], [tupleValue 2]⟩ noLimits 1).p_execute.2.m_outputTable.m_tuples = [] ++ sampleInput.map (fun _ => [some 7])
    ∧ (sampleProjection ⟨false, [], [], [tupleValue 2]⟩ noLimits 1).p_execute.2.m_outputTable.m_tuples
      = [] ++ sampleInput.map (fun tuple => [tupleValue 2].map (fun e => e.eval (some tuple) none))
    ∧ sampleInput.map (fun tuple => [tupleValue 2].map (fun e => e.eval (some tuple) none))
      = [[some 3], [some 6], [some 9]] :=
  ⟨(projection_mode_priority (sampleProjection ⟨false, [1], [some 7], [tupleValue 2]⟩ noLimits 1)
      (fun _ _ => rfl)).1 (by decide) (by decide),
   (projection_mode_priority (sampleProjection ⟨false, [], [some 7], [tupleValue 2]⟩ noLimits 1)
      (fun _ _ => rfl)).2.1 rfl (by decide) (by decide),
   (projection_mode_priority (sampleProjection ⟨false, [], [], [tupleValue 2]⟩ noLimits 1)
      (fun _ _ => rfl)).2.2 rfl rfl (by decide),
   by decide⟩

/-- C19, the code at the failing input: `ProjectionExecutor::p_execute` does not read the
result of `insertTempTuple` and always returns true. With a row ceiling of one tuple the
second and third insert are rejected and the call still returns true; with limits that
reject only the first output tuple the later input tuples are still projected and
inserted. -/
theorem projection_ignores_rejected_insert :
    (∀ self : ProjectionExecutor, self.p_execute.1 = true)
    ∧ (sampleProjection ⟨false, [2, 0], [], []⟩ (rowCeiling 1) 2).p_execute.1 = true
    ∧ (sampleProjection ⟨false, [2, 0], [], []⟩ (rowCeiling 1) 2).p_execute.2.m_outputTable.m_tuples = [[some 3, some 1]]
    ∧ (sampleProjection ⟨false, [2, 0], [], []⟩ (rejecting [some 3, some 1]) 2).p_execute.1 = true
    ∧ (sampleProjection ⟨false, [2, 0], [], []⟩ (rejecting [some 3, some 1]) 2).p_execute.2.m_outputTable.m_tuples = [[some 6, some 4], [some 9, some 7]] :=
  ⟨fun _ => rfl, by rfl, by decide, by rfl, by decide⟩


/-! ## Short start keys, ties, and the underflow of the start key -/

/-- C21 (as amended): in step 4, when the number of search-key expressions is smaller than
the column count of the index key schema, the greater-or-equal branch increments `rkStart`
by 1 and forces `leftIncluded` to 1; the greater-than branch does neither (`rkStart` is the
rank returned by the index and `leftIncluded` is 0). For both lookup types the emitted count
is `rkEnd - (probe + 1) - 1 + 1 + rightIncluded`, `probe` being the start rank returned by
the index. -/
theorem indexCount_short_key_adjustment (self : IndexCountExecutor) (m_searchKey : TableTuple)
    (m_endKey : TableTuple) (endKeyOverflow : Bool) (out : TempTable)
    (rkEnd rightIncluded : Int)
    (hshort : self.m_index.getKeySchema.columnCount > self.m_numOfSearchkeys)
    (hlt : self.m_lookupType = IndexLookupType.GT ∨ self.m_lookupType = IndexLookupType.GTE)
    (hend : endRank self.m_index self.m_numOfEndkeys endKeyOverflow self.m_endType m_endKey
      = some (rkEnd, rightIncluded)) :
    (self.m_lookupType = IndexLookupType.GTE →
      startRank self.m_index false self.m_lookupType m_searchKey self.m_numOfSearchkeys
        = some (startProbe self.m_index self.m_lookupType m_searchKey + 1, 1))
    ∧ (self.m_lookupType = IndexLookupType.GT →
      startRank self.m_index false self.m_lookupType m_searchKey self.m_numOfSearchkeys
        = some (startProbe self.m_index self.m_lookupType m_searchKey, 0))
    ∧ self.countRange m_searchKey false m_endKey endKeyOverflow out
        = Except.ok (true, out ++
            [rkEnd - (startProbe self.m_index self.m_lookupType m_searchKey + 1) - 1 + 1
              + rightIncluded]) := by
  have hgte : self.m_lookupType = IndexLookupType.GTE →
      startRank self.m_index false self.m_lookupType m_searchKey self.m_numOfSearchkeys
        = some (startProbe self.m_index self.m_lookupType m_searchKey + 1, 1) := by
    intro h
    by_cases hk : self.m_index.hasKey m_searchKey = true
    · simp [startRank, startProbe, h, hk, hshort]
    · simp [startRank, startProbe, h, hk, hshort]
  have hgt : self.m_lookupType = IndexLookupType.GT →
      startRank self.m_index false self.m_lookupType m_searchKey self.m_numOfSearchkeys
        = some (startProbe self.m_index self.m_lookupType m_searchKey, 0) := by
    intro h
    simp [startRank, startProbe, h]
  refine ⟨hgte, hgt, ?_⟩
  rcases hlt with h | h
  · simp only [IndexCountExecutor.countRange, hgt h, hend]
    have : rkEnd - startProbe self.m_index self.m_lookupType m_searchKey - 1 + 0 + rightIncluded
        = rkEnd - (startProbe self.m_index self.m_lookupType m_searchKey + 1) - 1 + 1
          + rightIncluded := by omega
    rw [this]
  · simp only [IndexCountExecutor.countRange, hgte h, hend]

/-- Witness for C21: the key `(4)` of one column on a two-column index, under GTE, with
the end key `(4, 9)` under LT. -/
theorem indexCount_short_key_adjustment_witness :
    startRank (rankIndex [⟨127⟩, ⟨127⟩] [[some 4, some 1], [some 4, some 12], [some 5, some 0]])
        false IndexLookupType.GTE [some 4, none] 1
      = some (startProbe
          (rankIndex [⟨127⟩, ⟨127⟩] [[some 4, some 1], [some 4, some 12], [some 5, some 0]])
          IndexLookupType.GTE [some 4, none] + 1, 1) :=
  (indexCount_short_key_adjustment
    (storedExecutor
      (rankIndex [⟨127⟩, ⟨127⟩] [[some 4, some 1], [some 4, some 12], [some 5, some 0]])
      IndexLookupType.GTE IndexLookupType.LT [some 4] [some 4, some 9])
    [some 4, none] [some 4, some 9] false [] 2 0 (by decide) (Or.inr rfl) (by rfl)).1 rfl

/-- Counterexample to C21 as stated: under greater-than the key `(4)` of one column on a
two-column index leaves `rkStart` at the rank 0 returned by the index and `leftIncluded`
at 0; it is not incremented to 1 and `leftIncluded` is not forced to 1. -/
theorem indexCount_short_key_gt_not_adjusted :
    (rankIndex [⟨127⟩, ⟨127⟩] [[some 4, some 1], [some 4, some 12], [some 5, some 0]]).getKeySchema.columnCount
      > 1
    ∧ (rankIndex [⟨127⟩, ⟨127⟩] [[some 4, some 1], [some 4, some 12], [some 5, some 0]]).getCounterLET
        [some 4, none] true = 0
    ∧ startRank (rankIndex [⟨127⟩, ⟨127⟩] [[some 4, some 1], [some 4, some 12], [some 5, some 0]])
        false IndexLookupType.GT [some 4, none] 1 = some (0, 0) :=
  ⟨by decide, by rfl, by rfl⟩


/-- The search-key loop tells the lookup types apart only as equality or comparison. -/
theorem searchKeyLoop_comparison (lookupType lookupType' : IndexLookupType) (n : Nat)
    (h : lookupType ≠ IndexLookupType.EQ) (h' : lookupType' ≠ IndexLookupType.EQ) :
    ∀ (exprs : List (Option KeyExpression)) (ctr : Nat) (key : TableTuple),
      searchKeyLoop lookupType n exprs ctr key = searchKeyLoop lookupType' n exprs ctr key := by
  intro exprs
  induction exprs with
  | nil => intro ctr key; rfl
  | cons x xs ih =>
    intro ctr key
    match x with
    | none => rfl
    | some (Except.ok v) => simp only [searchKeyLoop]; exact ih _ _
    | some (Except.error e) => simp only [searchKeyLoop, h, h', ne_eq, not_false_eq_true, true_and]

/-- C22: when no index entry equals the boundary key, an open and a closed boundary give the
same count. For a full-length start key, greater-than and greater-or-equal both take the
rank `getCounterLET(key, true)` with `leftIncluded = 0`; for an end key, less-than and
less-or-equal both take the rank `getCounterGET(key, false)` with `rightIncluded = 0`; the
two executions return the same result. -/
theorem indexCount_no_tie_open_closed (self : IndexCountExecutor) (out : TempTable) :
    (∀ m_searchKey searchKeyUnderflow,
      searchKeyLoop IndexLookupType.GT self.m_numOfSearchkeys
        (self.m_abstractNode.searchKeyExpressions.take self.m_numOfSearchkeys) 0
        (setAllNulls self.m_index.getKeySchema)
          = KeyLoop.finished m_searchKey searchKeyUnderflow →
      ¬ self.m_index.getKeySchema.columnCount > self.m_numOfSearchkeys →
      self.m_index.hasKey m_searchKey = false →
      startRank self.m_index false IndexLookupType.GT m_searchKey self.m_numOfSearchkeys
          = some (self.m_index.getCounterLET m_searchKey true, 0)
      ∧ startRank self.m_index false IndexLookupType.GTE m_searchKey self.m_numOfSearchkeys
          = some (self.m_index.getCounterLET m_searchKey true, 0)
      ∧ IndexCountExecutor.p_execute { self with m_lookupType := IndexLookupType.GT } out
          = IndexCountExecutor.p_execute { self with m_lookupType := IndexLookupType.GTE } out)
    ∧ (∀ m_endKey,
      self.m_numOfEndkeys ≠ 0 →
      endKeyLoop self.m_index.getKeySchema self.m_numOfEndkeys
        (self.m_abstractNode.endKeyExpressions.take self.m_numOfEndkeys) 0
        (setAllNulls self.m_index.getKeySchema) = KeyLoop.finished m_endKey false →
      self.m_index.hasKey m_endKey = false →
      endRank self.m_index self.m_numOfEndkeys false IndexLookupType.LT m_endKey
          = some (self.m_index.getCounterGET m_endKey false, 0)
      ∧ endRank self.m_index self.m_numOfEndkeys false IndexLookupType.LTE m_endKey
          = some (self.m_index.getCounterGET m_endKey false, 0)
      ∧ IndexCountExecutor.p_execute { self with m_endType := IndexLookupType.LT } out
          = IndexCountExecutor.p_execute { self with m_endType := IndexLookupType.LTE } out) := by
  constructor
  · intro m_searchKey searchKeyUnderflow hloop hfull hk
    have h1 : startRank self.m_index false IndexLookupType.GT m_searchKey self.m_numOfSearchkeys
        = some (self.m_index.getCounterLET m_searchKey true, 0) := by
      simp [startRank]
    have h2 : startRank self.m_index false IndexLookupType.GTE m_searchKey self.m_numOfSearchkeys
        = some (self.m_index.getCounterLET m_searchKey true, 0) := by
      simp [startRank, hk, hfull]
    refine ⟨h1, h2, ?_⟩
    have hloop' := hloop
    rw [searchKeyLoop_comparison IndexLookupType.GT IndexLookupType.GTE _ (by decide) (by decide)]
      at hloop'
    simp only [IndexCountExecutor.p_execute, hloop, hloop', IndexCountExecutor.countRange]
    cases searchKeyUnderflow with
    | false => rw [h1, h2]
    | true => simp [startRank]
  · intro m_endKey hnum hloop hk
    have h1 : endRank self.m_index self.m_numOfEndkeys false IndexLookupType.LT m_endKey
        = some (self.m_index.getCounterGET m_endKey false, 0) := by
      simp [endRank, hnum]
    have h2 : endRank self.m_index self.m_numOfEndkeys false IndexLookupType.LTE m_endKey
        = some (self.m_index.getCounterGET m_endKey false, 0) := by
      simp [endRank, hnum, hk]
    refine ⟨h1, h2, ?_⟩
    simp only [IndexCountExecutor.p_execute, hnum, ne_eq, not_false_eq_true, if_true, hloop,
      IndexCountExecutor.countRange, h1, h2]

/-- Witness for C22: on `{1,2,2,3,5}` no entry equals 4; `x > 4` and `x >= 4` agree, both
starting at the rank 4. -/
theorem indexCount_no_tie_open_closed_witness :
    startRank (rankIndex [⟨127⟩] exampleEntries) false IndexLookupType.GT [some 4] 1
        = some ((rankIndex [⟨127⟩] exampleEntries).getCounterLET [some 4] true, 0)
    ∧ startRank (rankIndex [⟨127⟩] exampleEntries) false IndexLookupType.GTE [some 4] 1
        = some ((rankIndex [⟨127⟩] exampleEntries).getCounterLET [some 4] true, 0)
    ∧ IndexCountExecutor.p_execute
        { storedExecutor (rankIndex [⟨127⟩] exampleEntries) IndexLookupType.GT
            IndexLookupType.INVALID [some 4] [] with m_lookupType := IndexLookupType.GT } []
      = IndexCountExecutor.p_execute
        { storedExecutor (rankIndex [⟨127⟩] exampleEntries) IndexLookupType.GT
            IndexLookupType.INVALID [some 4] [] with m_lookupType := IndexLookupType.GTE } [] :=
  (indexCount_no_tie_open_closed
    (storedExecutor (rankIndex [⟨127⟩] exampleEntries) IndexLookupType.GT
      IndexLookupType.INVALID [some 4] []) []).1 [some 4] false (by rfl) (by decide) (by rfl)


/-- After an underflow of the last search-key column under a comparison lookup type,
`p_execute` is the end of the algorithm without a start rank. -/
theorem p_execute_start_underflow (self : IndexCountExecutor) (out : TempTable)
    (values : List NValue) (e : SQLException)
    (hexprs : self.m_abstractNode.searchKeyExpressions
      = storedKeys values ++ [some (Except.error e)])
    (hnum : self.m_numOfSearchkeys = values.length + 1)
    (hover : e.TYPE_OVERFLOW = false) (hunder : e.TYPE_UNDERFLOW = true)
    (hlt : self.m_lookupType = IndexLookupType.GT ∨ self.m_lookupType = IndexLookupType.GTE) :
    self.p_execute out
      = countWithoutStart self.m_index self.m_abstractNode.endKeyExpressions self.m_numOfEndkeys
          self.m_endType out := by
  have hne : self.m_lookupType ≠ IndexLookupType.EQ := by
    rcases hlt with h | h <;> rw [h] <;> decide
  have htake : (storedKeys values ++ [some (Except.error e)]).take (values.length + 1)
      = storedKeys values ++ [some (Except.error e)] :=
    List.take_of_length_le (by simp [storedKeys])
  obtain ⟨key', hloop⟩ := searchKeyLoop_underflow self.m_lookupType values e
    (setAllNulls self.m_index.getKeySchema) hne hover hunder
  simp only [IndexCountExecutor.p_execute, hexprs, hnum, htake, hloop, countWithoutStart,
    IndexCountExecutor.countRange, startRank, Bool.true_eq_false, if_false]
  split
  · rfl
  · rfl
  · rfl
  · split
    · rfl
    · simp

/-- C23: when the last search-key column underflows under GT or GTE (the earlier columns
having been stored), `p_execute` skips the start rank step (`rkStart = 0`,
`leftIncluded = 0`) and emits `rkEnd - 1 + rightIncluded`. The result does not depend on
the values of the earlier search-key columns nor on GT versus GTE: two executors that
differ only in those agree. -/
theorem indexCount_underflow_ignores_start (self other : IndexCountExecutor) (out : TempTable)
    (values values' : List NValue) (e e' : SQLException)
    (hexprs : self.m_abstractNode.searchKeyExpressions
      = storedKeys values ++ [some (Except.error e)])
    (hnum : self.m_numOfSearchkeys = values.length + 1)
    (hover : e.TYPE_OVERFLOW = false) (hunder : e.TYPE_UNDERFLOW = true)
    (hlt : self.m_lookupType = IndexLookupType.GT ∨ self.m_lookupType = IndexLookupType.GTE)
    (hexprs' : other.m_abstractNode.searchKeyExpressions
      = storedKeys values' ++ [some (Except.error e')])
    (hnum' : other.m_numOfSearchkeys = values'.length + 1)
    (hover' : e'.TYPE_OVERFLOW = false) (hunder' : e'.TYPE_UNDERFLOW = true)
    (hlt' : other.m_lookupType = IndexLookupType.GT ∨ other.m_lookupType = IndexLookupType.GTE)
    (hindex : other.m_index = self.m_index)
    (hend : other.m_abstractNode.endKeyExpressions = self.m_abstractNode.endKeyExpressions)
    (hnumEnd : other.m_numOfEndkeys = self.m_numOfEndkeys)
    (hendType : other.m_endType = self.m_endType) :
    self.p_execute out = other.p_execute out
    ∧ (∀ key, startRank self.m_index true self.m_lookupType key self.m_numOfSearchkeys
        = some (0, 0))
    ∧ (∀ m_endKey endKeyOverflow rkEnd rightIncluded,
        (if self.m_numOfEndkeys ≠ 0 then
            endKeyLoop self.m_index.getKeySchema self.m_numOfEndkeys
              (self.m_abstractNode.endKeyExpressions.take self.m_numOfEndkeys) 0
              (setAllNulls self.m_index.getKeySchema)
          else KeyLoop.finished [] false) = KeyLoop.finished m_endKey endKeyOverflow →
        endRank self.m_index self.m_numOfEndkeys endKeyOverflow self.m_endType m_endKey
          = some (rkEnd, rightIncluded) →
        self.p_execute out = Except.ok (true, out ++ [rkEnd - 1 + rightIncluded])) := by
  have h1 := p_execute_start_underflow self out values e hexprs hnum hover hunder hlt
  have h2 := p_execute_start_underflow other out values' e' hexprs' hnum' hover' hunder' hlt'
  refine ⟨?_, ?_, ?_⟩
  · rw [h1, h2, hindex, hend, hnumEnd, hendType]
  · intro key
    simp [startRank]
  · intro m_endKey endKeyOverflow rkEnd rightIncluded hloop hrank
    rw [h1]
    simp only [countWithoutStart, hloop, hrank]

/-- Witness for C23: on a two-column index the start keys `(4, underflow)` under GT and
`(5, underflow)` under GTE, with the same end key `(4, 9)` under LT, give the same result,
the count 1 of the entries below `(4, 9)`. -/
theorem indexCount_underflow_ignores_start_witness :
    (underflowSample 4 IndexLookupType.GT).p_execute []
      = (underflowSample 5 IndexLookupType.GTE).p_execute []
    ∧ (underflowSample 4 IndexLookupType.GT).p_execute [] = Except.ok (true, [1]) :=
  ⟨(indexCount_underflow_ignores_start (underflowSample 4 IndexLookupType.GT)
      (underflowSample 5 IndexLookupType.GTE) [] [some 4] [some 5] ⟨false, true⟩ ⟨false, true⟩
      rfl rfl rfl rfl (Or.inl rfl) rfl rfl rfl rfl (Or.inr rfl) rfl rfl rfl rfl).1,
   by rfl⟩

/-! ## Equality on a full-length key -/

/-- Under the equality lookup type the search-key loop never sets the underflow flag. -/
theorem searchKeyLoop_eq_flag (n : Nat) :
    ∀ (exprs : List (Option KeyExpression)) (ctr : Nat) (key key' : TableTuple) (flag : Bool),
      searchKeyLoop IndexLookupType.EQ n exprs ctr key = KeyLoop.finished key' flag →
      flag = false := by
  intro exprs
  induction exprs with
  | nil =>
    intro ctr key key' flag h
    simp only [searchKeyLoop, KeyLoop.finished.injEq] at h
    exact h.2.symm
  | cons x xs ih =>
    intro ctr key key' flag h
    match x, h with
    | none, h => simp [searchKeyLoop] at h
    | some (Except.ok v), h =>
      simp only [searchKeyLoop] at h
      exact ih _ _ _ _ h
    | some (Except.error e), h =>
      simp only [searchKeyLoop, ne_eq, not_true_eq_false, false_and, if_false] at h
      split_ifs at h

/-- C24: with the equality lookup type and as many search-key expressions as the index key
schema has columns, `p_init` keeps the equality type, and every execution in which all key
coercions succeed returns false and leaves the output table as it was, whatever the index
and the end configuration. Under the equality type an execution that returns true has
appended the early-exit row 0. -/
theorem indexCount_full_key_eq_fails (index : TableIndex) (endType : IndexLookupType)
    (searchValues endValues : List NValue) (out : TempTable)
    (hfull : searchValues.length = index.getKeySchema.columnCount)
    (he : endValues.length ≤ index.getKeySchema.columnCount) :
    (storedExecutor index IndexLookupType.EQ endType searchValues endValues).m_lookupType
      = IndexLookupType.EQ
    ∧ IndexCountExecutor.run
        ⟨storedKeys searchValues, storedKeys endValues, IndexLookupType.EQ, endType⟩ index out
      = Except.ok (false, out)
    ∧ (∀ (self : IndexCountExecutor) (out0 out' : TempTable),
        self.m_lookupType = IndexLookupType.EQ →
        self.p_execute out0 = Except.ok (true, out') → out' = out0 ++ [0]) := by
  have hty : (storedExecutor index IndexLookupType.EQ endType searchValues endValues).m_lookupType
      = IndexLookupType.EQ := by
    simp [storedExecutor, hfull]
  refine ⟨hty, ?_, ?_⟩
  · rw [run_stored _ _ _ _ _ _ (by omega) he]
    have : startRank (storedExecutor index IndexLookupType.EQ endType searchValues endValues).m_index
        false (storedExecutor index IndexLookupType.EQ endType searchValues endValues).m_lookupType
        (keyOf index.getKeySchema searchValues)
        (storedExecutor index IndexLookupType.EQ endType searchValues endValues).m_numOfSearchkeys
        = none := by
      rw [hty]
      simp [startRank]
    simp only [IndexCountExecutor.countRange, this]
  · intro self out0 out' hEQ h
    simp only [IndexCountExecutor.p_execute, hEQ] at h
    split at h
    · simp only [Except.ok.injEq, Prod.mk.injEq, true_and] at h
      exact h.symm
    · simp at h
    · simp at h
    · rename_i m_searchKey searchKeyUnderflow hloop
      have hflag := searchKeyLoop_eq_flag _ _ _ _ _ _ hloop
      subst hflag
      split at h
      · simp only [Except.ok.injEq, Prod.mk.injEq, true_and] at h
        exact h.symm
      · simp at h
      · simp at h
      · simp [IndexCountExecutor.countRange, startRank, hEQ] at h

/-- Witness for C24: the full-length key 2 under the equality type on `{1,2,2,3,5}`, with
the end key 4 under LTE. -/
theorem indexCount_full_key_eq_fails_witness :
    IndexCountExecutor.run
        ⟨storedKeys [some 2], storedKeys [some 4], IndexLookupType.EQ, IndexLookupType.LTE⟩
        (rankIndex [⟨127⟩] exampleEntries) [7]
      = Except.ok (false, [7]) :=
  (indexCount_full_key_eq_fails (rankIndex [⟨127⟩] exampleEntries) IndexLookupType.LTE
    [some 2] [some 4] [7] (by decide) (by decide)).2.1

/-! ## A scan with other inline nodes only -/

/-- C25: when the scan plan has no predicate and its inline plan nodes are not empty but
hold neither a projection nor a limit node, `p_setOutputTable` creates a temp table of its
own, empty, and `p_execute` returns true and leaves the executor as it was: the output
table stays empty, whatever the target table holds. -/
theorem seqScan_other_inline_nodes_empty (self : SeqScanExecutor) (limits : TempTableLimits)
    (hpred : self.m_abstractNode.predicate = none)
    (hproj : self.m_abstractNode.inlineProjection = none)
    (hlim : self.m_abstractNode.inlineLimit = none)
    (hother : self.m_abstractNode.otherInlinePlanNodes ≠ 0) :
    self.m_abstractNode.inlinePlanNodesSize ≠ 0
    ∧ (self.p_setOutputTable limits).m_outputTable
      = OutputTableRef.tempTable
          ⟨limits, List.replicate self.m_abstractNode.outputColumnCount none, []⟩
    ∧ (self.p_setOutputTable limits).p_execute = Except.ok (true, self.p_setOutputTable limits)
    ∧ (self.p_setOutputTable limits).m_targetTable = self.m_targetTable := by
  have hsize : self.m_abstractNode.inlinePlanNodesSize ≠ 0 := by
    simp [SeqScanPlanNode.inlinePlanNodesSize, hproj, hlim, hother]
  have hset : self.p_setOutputTable limits
      = { self with
          m_outputTable :=
            (OutputTableRef.tempTable
              ⟨limits, List.replicate self.m_abstractNode.outputColumnCount none, []⟩) } := by
    simp [SeqScanExecutor.p_setOutputTable, hpred, hsize]
  refine ⟨hsize, by rw [hset], ?_, by rw [hset]⟩
  rw [hset]
  simp [SeqScanExecutor.p_execute, hpred, hproj, hlim]

/-- Witness for C25: a scan of the sample table of seven tuples with one inline node of
another type; the output table is empty after the call. -/
theorem seqScan_other_inline_nodes_empty_witness :
    (SeqScanExecutor.p_setOutputTable
        ⟨⟨none, none, none, 1, 2⟩, sampleRows, OutputTableRef.targetTable⟩ noLimits).m_outputTable
      = OutputTableRef.tempTable ⟨noLimits, List.replicate 2 none, []⟩
    ∧ (SeqScanExecutor.p_setOutputTable
        ⟨⟨none, none, none, 1, 2⟩, sampleRows, OutputTableRef.targetTable⟩ noLimits).p_execute
      = Except.ok (true, SeqScanExecutor.p_setOutputTable
          ⟨⟨none, none, none, 1, 2⟩, sampleRows, OutputTableRef.targetTable⟩ noLimits) :=
  ⟨(seqScan_other_inline_nodes_empty
      ⟨⟨none, none, none, 1, 2⟩, sampleRows, OutputTableRef.targetTable⟩ noLimits
      rfl rfl rfl (by decide)).2.1,
   (seqScan_other_inline_nodes_empty
      ⟨⟨none, none, none, 1, 2⟩, sampleRows, OutputTableRef.targetTable⟩ noLimits
      rfl rfl rfl (by decide)).2.2.1⟩

end voltdb
